import Mathlib

set_option maxRecDepth 100000

/-!
Verification development for the purchase-order extraction core of
`orden_compra_app` (files `extractor_oc.py`, `hash_oc.py`,
`sheets_uploader_oc.py`).

The Python sources are shallowly embedded:

* Python `float` values are idealized as exact fractions (`Frac`, an
  integer numerator with a positive natural denominator, kept
  un-normalized so that all arithmetic is executable in the kernel,
  with an exact rational denotation `Frac.val`).  Binary-float
  artifacts, `inf`/`nan` literals and scientific notation of huge
  values are outside the model.
* Strings are Lean `String`s; every operation used by the sources
  (strip, upper, replace, split, substring search, `isdigit`,
  `float(...)` parsing, `str(float)` printing) is re-implemented over
  `List Char` so that it evaluates inside the kernel.
* pandas DataFrames are lists of typed rows; a cell of an
  object-dtype column is `Cell` (string, float, or missing).
* The regular-expression searches of the sources are re-implemented
  as leftmost-match scanners specialized to the concrete patterns.
* MD5 is implemented in full, so digests are computed exactly.
-/

/-! ## Python-style character and string helpers -/

/-- Whitespace characters recognized by Python `str.strip` / `\s`
(ASCII fragment: space, tab, newline, carriage return, vertical tab,
form feed). -/
def isPySpace (c : Char) : Bool :=
  c = ' ' || c = '\t' || c = '\n' || c = '\r' || c = Char.ofNat 11 || c = Char.ofNat 12

/-- ASCII decimal digit test (Python `str.isdigit`, ASCII fragment). -/
def isDigitC (c : Char) : Bool :=
  '0' ≤ c && c ≤ '9'

/-- Strip leading and trailing whitespace from a character list. -/
def stripL (cs : List Char) : List Char :=
  ((cs.dropWhile isPySpace).reverse.dropWhile isPySpace).reverse

/-- Python `str.strip()`. -/
def pyStrip (s : String) : String :=
  ⟨stripL s.data⟩

/-- Python `str.replace(c, "")`: remove every occurrence of a character. -/
def removeChar (c : Char) (s : String) : String :=
  ⟨s.data.filter (fun x => x ≠ c)⟩

/-- Python `str.upper()` (ASCII fragment). -/
def pyUpper (s : String) : String :=
  ⟨s.data.map Char.toUpper⟩

/-- Python `str.isdigit()`: non-empty and all digits (ASCII fragment). -/
def pyIsDigit (s : String) : Bool :=
  !s.data.isEmpty && s.data.all isDigitC

/-- Does the list start with the given pattern? -/
def startsWithL : List Char → List Char → Bool
  | _, [] => true
  | [], _ :: _ => false
  | c :: cs, p :: ps => c = p && startsWithL cs ps

/-- Substring containment on character lists (Python `pat in s`). -/
def containsL : List Char → List Char → Bool
  | cs, pat =>
    startsWithL cs pat ||
      match cs with
      | [] => false
      | _ :: t => containsL t pat

/-- Python substring test `pat in s`. -/
def containsS (s pat : String) : Bool :=
  containsL s.data pat.data

/-- The prefix of `cs` before the first occurrence of the (non-empty)
pattern; the whole list when the pattern does not occur.  This is
`s.split(pat)[0]` in Python. -/
def beforeSubL : List Char → List Char → List Char
  | cs, pat =>
    if startsWithL cs pat then []
    else
      match cs with
      | [] => []
      | c :: t => c :: beforeSubL t pat

/-- Python `s.split(sep)[0]` for a fixed non-empty separator. -/
def beforeSub (s sep : String) : String :=
  ⟨beforeSubL s.data sep.data⟩

/-- Split a string on newline characters (Python `s.split("\n")`). -/
def splitNlAux : List Char → List Char → List String
  | acc, [] => [⟨acc.reverse⟩]
  | acc, c :: cs =>
    if c = '\n' then ⟨acc.reverse⟩ :: splitNlAux [] cs
    else splitNlAux (c :: acc) cs

/-- Python `s.split("\n")`. -/
def splitNl (s : String) : List String :=
  splitNlAux [] s.data

/-- Lexicographic comparison of character lists by code point, the
order Python uses for `str` comparison (hence for sorting). -/
def leL : List Char → List Char → Bool
  | [], _ => true
  | _ :: _, [] => false
  | a :: as, b :: bs =>
    if a.toNat < b.toNat then true
    else if b.toNat < a.toNat then false
    else leL as bs

/-- Python `str(cell)` for an optional table cell (`str(None)` is
`"None"`). -/
def pyCellStr : Option String → String
  | none => "None"
  | some s => s

/-! ## Decimal digits of natural numbers -/

/-- Digits of `n`, least significant first; fuel-driven so that it is
structurally recursive and kernel-reducible. -/
def natDigitsRevAux : ℕ → ℕ → List ℕ
  | 0, _ => []
  | fuel + 1, n => if n = 0 then [] else n % 10 :: natDigitsRevAux fuel (n / 10)

/-- Digits of `n`, least significant first (empty for 0). -/
def natDigitsRev (n : ℕ) : List ℕ :=
  natDigitsRevAux n n

/-- Character of a decimal digit. -/
def digitCh (d : ℕ) : Char :=
  Char.ofNat (48 + d)

/-- Decimal representation of a natural number (Python `str(int)` for
non-negative input). -/
def natToChars (n : ℕ) : List Char :=
  if n = 0 then ['0'] else ((natDigitsRev n).reverse.map digitCh)

/-- Decimal representation of an integer (Python `str(int)`). -/
def intToChars (n : ℤ) : List Char :=
  if n < 0 then '-' :: natToChars n.natAbs else natToChars n.natAbs

/-- Numeric value of a digit character list, most significant first. -/
def charsToNat (cs : List Char) : ℕ :=
  cs.foldl (fun acc c => 10 * acc + (c.toNat - 48)) 0

/-! ## Exact fractions: the idealization of Python floats -/

/-- An exact fraction with positive denominator.  Kept un-normalized
(no gcd), because `Rat` arithmetic does not reduce inside the kernel;
`Frac.val` is the rational denotation. -/
structure Frac where
  num : ℤ
  den : ℕ
  pos : 0 < den

instance : DecidableEq Frac := fun a b =>
  if h : a.num = b.num ∧ a.den = b.den then
    isTrue (by cases a; cases b; simp_all)
  else
    isFalse (by intro he; cases he; simp_all)

/-- Rational denotation of a fraction. -/
def Frac.val (f : Frac) : ℚ :=
  (f.num : ℚ) / (f.den : ℚ)

/-- The fraction 0. -/
def Frac.zero : Frac :=
  ⟨0, 1, Nat.one_pos⟩

/-- Embed an integer. -/
def Frac.ofInt (n : ℤ) : Frac :=
  ⟨n, 1, Nat.one_pos⟩

/-- Addition (no normalization). -/
def Frac.add (a b : Frac) : Frac :=
  ⟨a.num * b.den + b.num * a.den, a.den * b.den, Nat.mul_pos a.pos b.pos⟩

/-- Subtraction (no normalization). -/
def Frac.sub (a b : Frac) : Frac :=
  ⟨a.num * b.den - b.num * a.den, a.den * b.den, Nat.mul_pos a.pos b.pos⟩

/-- Multiplication (no normalization). -/
def Frac.mul (a b : Frac) : Frac :=
  ⟨a.num * b.num, a.den * b.den, Nat.mul_pos a.pos b.pos⟩

/-- Division by a positive natural number. -/
def Frac.divNat (a : Frac) (n : ℕ) (h : 0 < n) : Frac :=
  ⟨a.num, a.den * n, Nat.mul_pos a.pos h⟩

/-- Multiplication by `10 ^ k`. -/
def Frac.mulPow10 (k : ℕ) (a : Frac) : Frac :=
  ⟨a.num * 10 ^ k, a.den, a.pos⟩

/-- Banker's rounding (round half to even) of a fraction to the
nearest integer — the rounding used by Python `round`, `float.__format__`
and numpy/pandas `round`. -/
def Frac.roundEven (f : Frac) : ℤ :=
  if 2 * (f.num - Int.fdiv f.num f.den * f.den) < (f.den : ℤ) then Int.fdiv f.num f.den
  else if (f.den : ℤ) < 2 * (f.num - Int.fdiv f.num f.den * f.den) then Int.fdiv f.num f.den + 1
  else if Int.fdiv f.num f.den % 2 = 0 then Int.fdiv f.num f.den
  else Int.fdiv f.num f.den + 1

/-- Python `round(x, k)` / pandas `.round(k)` in the exact model. -/
def roundTo (k : ℕ) (f : Frac) : Frac :=
  ⟨(f.mulPow10 k).roundEven, 10 ^ k, Nat.pos_pow_of_pos k (by decide)⟩

/-! ## Printing and parsing of Python floats -/

/-- Least `k ≤ 20` such that `f * 10 ^ k` is an integer, when one
exists.  Values in this program always have short decimal expansions;
the cap mirrors the finite precision of the floats being idealized. -/
def decExp (f : Frac) : Option ℕ :=
  (List.range 21).find? (fun k => (f.num * (10 : ℤ) ^ k) % (f.den : ℤ) == 0)

/-- Render the integer `n` as a decimal with `k` fractional digits
(at least one fractional digit, as Python float `repr` always shows
one). -/
def renderCents (n : ℤ) (k : ℕ) : List Char :=
  let sign : List Char := if n < 0 then ['-'] else []
  let m := n.natAbs
  if k = 0 then sign ++ natToChars m ++ ['.', '0']
  else
    let ds := natToChars m
    let pad := if ds.length ≤ k then List.replicate (k + 1 - ds.length) '0' ++ ds else ds
    sign ++ pad.take (pad.length - k) ++ '.' :: pad.drop (pad.length - k)

/-- Python `str(float)`: the shortest decimal expansion of the value
(model restricted to decimally-representable values; the `"?"` branch
is unreachable for every number this program constructs). -/
def pyStr (f : Frac) : String :=
  match decExp f with
  | none => "?"
  | some k => ⟨renderCents (Int.fdiv (f.num * (10 : ℤ) ^ k) (f.den : ℤ)) k⟩

/-- Python `f"{x:.2f}"`: fixed two fractional digits, half-even. -/
def format2f (f : Frac) : String :=
  let n := (f.mulPow10 2).roundEven
  let sign : List Char := if n < 0 then ['-'] else []
  let m := n.natAbs
  let frac := m % 100
  ⟨sign ++ natToChars (m / 100) ++ '.' :: (if frac < 10 then '0' :: natToChars frac else natToChars frac)⟩

/-- Parse an optional sign; return the sign factor and the rest. -/
def parseSign (cs : List Char) : Bool × List Char :=
  match cs with
  | c :: t => if c = '-' then (true, t) else if c = '+' then (false, t) else (false, cs)
  | [] => (false, cs)

/-- Exponent suffix of a Python float literal: optional sign and at
least one digit, then end of string. -/
def pyFloatExp (base : Frac) (r : List Char) : Option Frac :=
  let (eneg, r1) := parseSign r
  let ed := r1.takeWhile isDigitC
  if ed.isEmpty || !(r1.dropWhile isDigitC).isEmpty then none
  else
    let e := charsToNat ed
    if eneg then some ⟨base.num, base.den * 10 ^ e, Nat.mul_pos base.pos (Nat.pos_pow_of_pos _ (by decide))⟩
    else some ⟨base.num * 10 ^ e, base.den, base.pos⟩

/-- Parser for Python `float(str)` on character lists: optional sign,
decimal digits with optional fraction, optional exponent; surrounding
whitespace allowed.  `none` models `ValueError` (and the unmodeled
`inf`/`nan` forms). -/
def pyFloatL (cs0 : List Char) : Option Frac :=
  let cs := stripL cs0
  let (neg, cs1) := parseSign cs
  let ip := cs1.takeWhile isDigitC
  let rest1 := cs1.dropWhile isDigitC
  let (fp, rest2) :=
    match rest1 with
    | c :: r => if c = '.' then (r.takeWhile isDigitC, r.dropWhile isDigitC) else ([], rest1)
    | [] => ([], rest1)
  if ip.isEmpty && fp.isEmpty then none
  else
    let mant : ℤ := (charsToNat ip * 10 ^ fp.length + charsToNat fp : ℕ)
    let sMant : ℤ := if neg then -mant else mant
    let base : Frac := ⟨sMant, 10 ^ fp.length, Nat.pos_pow_of_pos _ (by decide)⟩
    match rest2 with
    | [] => some base
    | c :: r3 => if c = 'e' || c = 'E' then pyFloatExp base r3 else none

/-- Python `float(s)`, returning `none` on `ValueError`. -/
def pyFloat (s : String) : Option Frac :=
  pyFloatL s.data

/-! ## MD5 -/

/-- UTF-8 encoding of one character. -/
def utf8Ch (c : Char) : List ℕ :=
  let n := c.toNat
  if n < 128 then [n]
  else if n < 2048 then [192 + n / 64, 128 + n % 64]
  else if n < 65536 then [224 + n / 4096, 128 + n / 64 % 64, 128 + n % 64]
  else [240 + n / 262144, 128 + n / 4096 % 64, 128 + n / 64 % 64, 128 + n % 64]

/-- UTF-8 bytes of a string. -/
def strBytes (s : String) : List ℕ :=
  (s.data.map utf8Ch).flatten

/-- The 64 MD5 sine constants `⌊|sin (i+1)| · 2³²⌋`. -/
def md5K : List ℕ := [
  3614090360, 3905402710, 606105819, 3250441966, 4118548399, 1200080426, 2821735955, 4249261313,
  1770035416, 2336552879, 4294925233, 2304563134, 1804603682, 4254626195, 2792965006, 1236535329,
  4129170786, 3225465664, 643717713, 3921069994, 3593408605, 38016083, 3634488961, 3889429448,
  568446438, 3275163606, 4107603335, 1163531501, 2850285829, 4243563512, 1735328473, 2368359562,
  4294588738, 2272392833, 1839030562, 4259657740, 2763975236, 1272893353, 4139469664, 3200236656,
  681279174, 3936430074, 3572445317, 76029189, 3654602809, 3873151461, 530742520, 3299628645,
  4096336452, 1126891415, 2878612391, 4237533241, 1700485571, 2399980690, 4293915773, 2240044497,
  1873313359, 4264355552, 2734768916, 1309151649, 4149444226, 3174756917, 718787259, 3951481745]

/-- The per-round left-rotation amounts. -/
def md5S : List ℕ := [
  7, 12, 17, 22, 7, 12, 17, 22, 7, 12, 17, 22, 7, 12, 17, 22,
  5, 9, 14, 20, 5, 9, 14, 20, 5, 9, 14, 20, 5, 9, 14, 20,
  4, 11, 16, 23, 4, 11, 16, 23, 4, 11, 16, 23, 4, 11, 16, 23,
  6, 10, 15, 21, 6, 10, 15, 21, 6, 10, 15, 21, 6, 10, 15, 21]

/-- Addition modulo 2³². -/
def addW (a b : ℕ) : ℕ :=
  (a + b) % 4294967296

/-- Left rotation of a 32-bit word. -/
def rotl32 (x s : ℕ) : ℕ :=
  (x <<< s) % 4294967296 + x >>> (32 - s)

/-- 32-bit complement. -/
def compW (x : ℕ) : ℕ :=
  4294967295 - x

/-- Little-endian bytes of `n`, `count` of them. -/
def leBytes (count n : ℕ) : List ℕ :=
  (List.range count).map (fun i => n >>> (8 * i) % 256)

/-- MD5 padding: `0x80`, zeros to 56 mod 64, then the 64-bit
little-endian bit length. -/
def md5Pad (msg : List ℕ) : List ℕ :=
  let len := msg.length
  let z := (120 - (len + 1) % 64) % 64
  msg ++ 128 :: List.replicate z 0 ++ leBytes 8 (len * 8 % 18446744073709551616)

/-- The sixteen little-endian message words of one 64-byte chunk. -/
def chunkWords (chunk : List ℕ) : List ℕ :=
  (List.range 16).map (fun j =>
    chunk.getD (4 * j) 0 + 256 * (chunk.getD (4 * j + 1) 0 +
      256 * (chunk.getD (4 * j + 2) 0 + 256 * chunk.getD (4 * j + 3) 0)))

/-- One MD5 round. -/
def md5Round (m : List ℕ) (st : ℕ × ℕ × ℕ × ℕ) (i : ℕ) : ℕ × ℕ × ℕ × ℕ :=
  let (a, b, c, d) := st
  let (f, g) :=
    if i < 16 then ((b &&& c) ||| (compW b &&& d), i)
    else if i < 32 then ((d &&& b) ||| (compW d &&& c), (5 * i + 1) % 16)
    else if i < 48 then (b ^^^ c ^^^ d, (3 * i + 5) % 16)
    else (c ^^^ (b ||| compW d), 7 * i % 16)
  let t := addW (addW (addW f a) (md5K.getD i 0)) (m.getD g 0)
  (d, addW b (rotl32 t (md5S.getD i 0)), b, c)

/-- Process one 64-byte chunk. -/
def md5Chunk (st : ℕ × ℕ × ℕ × ℕ) (chunk : List ℕ) : ℕ × ℕ × ℕ × ℕ :=
  let m := chunkWords chunk
  let (a, b, c, d) := st
  let (a1, b1, c1, d1) := (List.range 64).foldl (md5Round m) st
  (addW a a1, addW b b1, addW c c1, addW d d1)

/-- Fold over the 64-byte chunks of the padded message (fuel-driven
recursion so that the kernel can evaluate it). -/
def md5Chunks : ℕ → ℕ × ℕ × ℕ × ℕ → List ℕ → ℕ × ℕ × ℕ × ℕ
  | 0, st, _ => st
  | _ + 1, st, [] => st
  | fuel + 1, st, bytes => md5Chunks fuel (md5Chunk st (bytes.take 64)) (bytes.drop 64)

/-- Lowercase hex characters of one byte. -/
def byteHex (b : ℕ) : List Char :=
  let hx := fun n => Char.ofNat (if n < 10 then 48 + n else 87 + n)
  [hx (b / 16), hx (b % 16)]

/-- The full lowercase hex MD5 digest of a byte list
(`hashlib.md5(bytes).hexdigest()`). -/
def md5Hex (msg : List ℕ) : String :=
  let padded := md5Pad msg
  let (a, b, c, d) := md5Chunks (padded.length / 64 + 1) (1732584193, 4023233417, 2562383102, 271733878) padded
  ⟨((leBytes 4 a ++ leBytes 4 b ++ leBytes 4 c ++ leBytes 4 d).map byteHex).flatten⟩

/-- `hashlib.md5(s.encode("utf-8")).hexdigest()[:12]`, the digest both
fingerprint implementations return. -/
def md5Hex12 (s : String) : String :=
  ⟨(md5Hex (strBytes s)).data.take 12⟩

example : md5Hex (strBytes "") = "d41d8cd98f00b204e9800998ecf8427e" := by decide

example : md5Hex (strBytes "abc") = "900150983cd24fb0d6963f7d28e17f72" := by decide

/-! ## Line-item parser: `extractor_oc.procesar_tabla_productos` -/

/-- A table row as delivered by pdfplumber: optional cell strings. -/
abbrev Row := List (Option String)

/-- A page table: ordered rows of optional cells. -/
abbrev Grid := List Row

/-- Python truthiness of a cell (`row[i]`): `None` and `""` are falsy. -/
def truthyCell : Option String → Bool
  | none => false
  | some s => !(s == "")

/-- Python `any(row)`. -/
def rowAnyTruthy (r : Row) : Bool :=
  r.any truthyCell

/-- The idiom `str(row[i]).strip() if len(row) > i and row[i] else ""`. -/
def strippedCell (r : Row) (i : ℕ) : String :=
  match r.getD i none with
  | none => ""
  | some s => if s == "" then "" else pyStrip s

/-- The idiom `str(row[i]).replace(",", "").strip() if len(row) > i and
row[i] else "0"` used for quantity (col 5), price (col 8) and printed
extended amount (col 13). -/
def numCellRaw (r : Row) (i : ℕ) : String :=
  match r.getD i none with
  | none => "0"
  | some s => if s == "" then "0" else pyStrip (removeChar ',' s)

/-- `float(s) if s else 0.0` with `except: 0.0`. -/
def parseOr0 (s : String) : Frac :=
  if s == "" then Frac.zero else (pyFloat s).getD Frac.zero

/-- `float(s) if s else fb` with `except: fb` (the printed extended
amount falls back to `cantidad * precio`, `extractor_oc.py` 222–227). -/
def parseOrF (s : String) (fb : Frac) : Frac :=
  if s == "" then fb else (pyFloat s).getD fb

/-- Percent cells (cols 10/11): strip `%` and `,`, parse, default 0.0
(`extractor_oc.py` 204–220). -/
def pctValue (r : Row) (i : ℕ) : Frac :=
  match r.getD i none with
  | none => Frac.zero
  | some s =>
    if s == "" then Frac.zero
    else
      let t := pyStrip (removeChar ',' (removeChar '%' s))
      if t == "" then Frac.zero else (pyFloat t).getD Frac.zero

/-- Unit column (col 6) with default `"UN"` (`extractor_oc.py` 192–195). -/
def unidadCell (r : Row) : String :=
  match r.getD 6 none with
  | none => "UN"
  | some s =>
    if s == "" then "UN"
    else
      let u := pyStrip s
      if u == "" then "UN" else u

/-- An item while it is being accumulated: the 8-element
`current_product` list of `extractor_oc.py` 231–240. -/
structure RawItem where
  codigo : String
  descripcion : String
  cantidad : Frac
  unidad : String
  precio : Frac
  descuentoPct : Frac
  impuestoPct : Frac
  importe : Frac
deriving DecidableEq

/-- Read one item-start row at the fixed column offsets
(`extractor_oc.py` 181–240). -/
def parseItemRow (r : Row) : RawItem :=
  let cantidad := parseOr0 (numCellRaw r 5)
  let precio := parseOr0 (numCellRaw r 8)
  { codigo := strippedCell r 1
    descripcion := strippedCell r 2
    cantidad := cantidad
    unidad := unidadCell r
    precio := precio
    descuentoPct := pctValue r 10
    impuestoPct := pctValue r 11
    importe := parseOrF (numCellRaw r 13) (cantidad.mul precio) }

/-- Item-start test: numeric `Itm` in column 0 and non-empty code in
column 1 (`extractor_oc.py` 176). -/
def isItemStartRow (r : Row) : Bool :=
  pyIsDigit (strippedCell r 0) && !(strippedCell r 1 == "")

/-- Footer keywords that terminate the product table
(`extractor_oc.py` 252).  `"IMpto"` is kept verbatim from the source;
it can never match because the tested cell is upper-cased first. -/
def footerKeywords : List String :=
  ["SUBTOTAL", "TOTAL", "IMPUESTO", "IMpto", "AVISO", "FIRMA"]

/-- Terminator test on `str(row[0] if row[0] else "").upper().strip()`
(`extractor_oc.py` 251–252). -/
def isTerminatorRow (r : Row) : Bool :=
  let primera :=
    pyStrip (pyUpper (match r.getD 0 none with
      | none => ""
      | some s => if s == "" then "" else s))
  footerKeywords.any (fun k => containsS primera k)

/-- The appendable continuation text of a row, when any
(`extractor_oc.py` 242–248): column 2 must hold non-empty text that is
not numeric after removing `.` and `,`. -/
def contCell (r : Row) : Option String :=
  match r.getD 2 none with
  | none => none
  | some s =>
    if s == "" then none
    else
      let extra := pyStrip s
      if extra == "" then none
      else if pyIsDigit (removeChar ',' (removeChar '.' extra)) then none
      else some extra

/-- Description continuation (`extractor_oc.py` 242–248): append the
continuation text to the open item's description with a single space. -/
def appendCont (p : RawItem) (r : Row) : RawItem :=
  match contCell r with
  | none => p
  | some extra => { p with descripcion := p.descripcion ++ " " ++ extra }

/-- One iteration of the row loop before the terminator check: the
item-start branch and the continuation branch (`extractor_oc.py`
171–248).  Returns the items emitted by this row and the new open item. -/
def scanStep (r : Row) (cur : Option RawItem) : List RawItem × Option RawItem :=
  if isItemStartRow r then
    (cur.toList, some (parseItemRow r))
  else
    match cur with
    | some p =>
      if !(pyIsDigit (strippedCell r 0)) then ([], some (appendCont p r)) else ([], some p)
    | none => ([], none)

/-- The row loop of `extractor_oc.py` 166–264: skip rows with no truthy
cell, apply the item-start/continuation step, then test the terminator
(which closes the open item and stops the scan); at the end of the grid
the still-open item is closed. -/
def scanRows : List Row → Option RawItem → List RawItem
  | [], cur => cur.toList
  | r :: rest, cur =>
    if !rowAnyTruthy r then scanRows rest cur
    else
      let st := scanStep r cur
      if isTerminatorRow r then st.1 ++ st.2.toList
      else st.1 ++ scanRows rest st.2

/-- `CONFIG["orden_header"]`. -/
def ordenHeader : String := "Itm"

/-- `CONFIG["decimales"]`. -/
def decimales : ℕ := 3

/-- Header-row test `row and str(row[0]).strip() == "Itm"`
(`extractor_oc.py` 155). -/
def isHeaderRow (r : Row) : Bool :=
  !r.isEmpty && (pyStrip (pyCellStr (r.getD 0 none)) == ordenHeader)

/-- The rows after the first header row, when a header exists
(`raw_data[start_idx + 1:]`). -/
def afterHeader : Grid → Option Grid
  | [] => none
  | r :: rest => if isHeaderRow r then some rest else afterHeader rest

/-- One row of the DataFrame built by `procesar_tabla_productos`: the 8
parsed columns plus the 3 derived columns. -/
structure ProdRow where
  codigo : String
  descripcion : String
  cantidad : Frac
  unidad : String
  precio : Frac
  descuentoPct : Frac
  impuestoPct : Frac
  importe : Frac
  montoDescuento : Frac
  montoImpuesto : Frac
  totalPorProducto : Frac
deriving DecidableEq

/-- Numeric conversion and derived columns (`extractor_oc.py` 288–295):
round the numeric columns to 3 decimals, then
`Monto Descuento = round(Importe * Descuento% / 100, 3)`,
`Monto Impuesto = round(Importe * Impuesto% / 100, 3)`,
`Total por Producto = round(Importe + Monto Impuesto - Monto Descuento, 3)`. -/
def mkProdRow (it : RawItem) : ProdRow :=
  let cantidad := roundTo decimales it.cantidad
  let precio := roundTo decimales it.precio
  let descuentoPct := roundTo decimales it.descuentoPct
  let impuestoPct := roundTo decimales it.impuestoPct
  let importe := roundTo decimales it.importe
  let montoDescuento := roundTo decimales (importe.mul (descuentoPct.divNat 100 (by decide)))
  let montoImpuesto := roundTo decimales (importe.mul (impuestoPct.divNat 100 (by decide)))
  let totalPorProducto := roundTo decimales ((importe.add montoImpuesto).sub montoDescuento)
  ⟨it.codigo, it.descripcion, cantidad, it.unidad, precio, descuentoPct,
    impuestoPct, importe, montoDescuento, montoImpuesto, totalPorProducto⟩

/-- Status tag distinguishing the three exits of the parser: header
found with items, missing header (`extractor_oc.py` 158–160), header
but no items (`extractor_oc.py` 266–268). -/
inductive ExtractStatus
  | found
  | noHeader
  | noItems
deriving DecidableEq

/-- Result of the line-item parser: items plus status tag. -/
structure ProdResult where
  items : List ProdRow
  status : ExtractStatus
deriving DecidableEq

/-- `extractor_oc.procesar_tabla_productos` (lines 146–306).  The final
`dropna(subset=["Total por Producto"])` is the identity in the exact
model (no value is NaN), and the required-column check of lines 284–286
always passes because the 8 columns are always constructed; the
`page_num` argument only feeds log messages and is omitted. -/
def procesar_tabla_productos (raw : Grid) : ProdResult :=
  match afterHeader raw with
  | none => ⟨[], .noHeader⟩
  | some rest =>
    let productos := scanRows rest none
    if productos.isEmpty then ⟨[], .noItems⟩
    else ⟨productos.map mkProdRow, .found⟩

/-! ## Metadata and totals resolvers (`extraer_datos_generales`,
`extraer_numero_y_fecha`, `_extraer_totales_del_texto`) -/

/-- Case-insensitive literal match; returns the remaining input. -/
def matchLit : List Char → List Char → Option (List Char)
  | cs, [] => some cs
  | [], _ :: _ => none
  | c :: cs, p :: ps => if c.toLower == p.toLower then matchLit cs ps else none

/-- Regex `\s+` followed by maximal munch: at least one whitespace. -/
def matchWs1 : List Char → Option (List Char)
  | c :: rest => if isPySpace c then some (rest.dropWhile isPySpace) else none
  | [] => none

/-- Regex `\d{n}`: exactly `n` digits. -/
def matchDigitsN : ℕ → List Char → Option (List Char × List Char)
  | 0, cs => some ([], cs)
  | _ + 1, [] => none
  | n + 1, c :: cs =>
    if isDigitC c then (matchDigitsN n cs).map (fun p => (c :: p.1, p.2)) else none

/-- Leftmost-match driver: `re.search` tries every start position in
order. -/
def scanFirstAux {α : Type} (f : List Char → Option α) : List Char → Option α
  | [] => f []
  | cs@(_ :: t) =>
    match f cs with
    | some v => some v
    | none => scanFirstAux f t

/-- Greedy `(?:,\d{3})*`: comma groups of exactly three digits
(fuel-driven). -/
def amountGroupsAux : ℕ → List Char → List Char × List Char
  | 0, cs => ([], cs)
  | fuel + 1, cs =>
    match cs with
    | ',' :: rest =>
      match matchDigitsN 3 rest with
      | some (ds, rest2) =>
        let p := amountGroupsAux fuel rest2
        (',' :: ds ++ p.1, p.2)
      | none => ([], cs)
    | _ => ([], cs)

/-- Optional fraction `(?:\.\d+)?`. -/
def amountFrac : List Char → List Char × List Char
  | '.' :: rest =>
    let ds := rest.takeWhile isDigitC
    if ds.isEmpty then ([], '.' :: rest) else ('.' :: ds, rest.dropWhile isDigitC)
  | cs => ([], cs)

/-- The amount pattern `\d{1,3}(?:,\d{3})*(?:\.\d+)?` used by all three
totals regexes; returns the matched text and the rest. -/
def matchAmount (cs : List Char) : Option (List Char × List Char) :=
  let d := cs.takeWhile isDigitC
  if d.isEmpty then none
  else
    let h := d.take 3
    let rest := cs.drop h.length
    let p := amountGroupsAux rest.length rest
    let fr := amountFrac p.2
    some (h ++ p.1 ++ fr.1, fr.2)

/-- `N[º°°]\s*Orden\s*[:]?\s*(\d+)` at one position (`extractor_oc.py`
line 130), case-insensitively; returns the captured digits. -/
def matchNumOrden : List Char → Option String
  | c0 :: c1 :: rest =>
    if c0.toLower == 'n' && (c1 = 'º' || c1 = '°') then
      match matchLit (rest.dropWhile isPySpace) "Orden".data with
      | some r2 =>
        let r3 := r2.dropWhile isPySpace
        let r4 := match r3 with
          | ':' :: t => t
          | t => t
        let r5 := r4.dropWhile isPySpace
        let ds := r5.takeWhile isDigitC
        if ds.isEmpty then none else some ⟨ds⟩
      | none => none
    else none
  | _ => none

/-- `Fecha\s+(\d{2}/\d{2}/\d{4})` at one position (`extractor_oc.py`
line 134); returns the captured date. -/
def matchFecha (cs : List Char) : Option String :=
  match matchLit cs "Fecha".data with
  | none => none
  | some r1 =>
    match matchWs1 r1 with
    | none => none
    | some r2 =>
      match matchDigitsN 2 r2 with
      | some (d1, '/' :: r3) =>
        match matchDigitsN 2 r3 with
        | some (d2, '/' :: r4) =>
          match matchDigitsN 4 r4 with
          | some (d3, _) => some ⟨d1 ++ '/' :: d2 ++ '/' :: d3⟩
          | none => none
        | _ => none
      | _ => none

/-- `extractor_oc.extraer_numero_y_fecha` (lines 126–140): leftmost
matches of the order-number and date patterns over the page text. -/
def extraer_numero_y_fecha (texto : String) : Option String × Option String :=
  (scanFirstAux matchNumOrden texto.data, scanFirstAux matchFecha texto.data)

/-- A labeled amount `LABEL\.?\s+(amount)` at one position; the
optional dot is only part of the `Impto` pattern. -/
def matchLabeledAmount (label : List Char) (optDot : Bool) (cs : List Char) : Option String :=
  match matchLit cs label with
  | none => none
  | some r1 =>
    let r2 := if optDot then
        match r1 with
        | '.' :: t => t
        | t => t
      else r1
    match matchWs1 r2 with
    | none => none
    | some r3 => (matchAmount r3).map (fun p => ⟨p.1⟩)

/-- One case-insensitive character. -/
def matchChCi (c : Char) : List Char → Option (List Char)
  | x :: t => if x.toLower == c.toLower then some t else none
  | [] => none

/-- `T\s+O\s+T\s+A\s+L\s+(amount)` at one position (`extractor_oc.py`
line 408). -/
def matchSpacedTotal (cs : List Char) : Option String := do
  let r1 ← matchChCi 'T' cs
  let r2 ← matchWs1 r1
  let r3 ← matchChCi 'O' r2
  let r4 ← matchWs1 r3
  let r5 ← matchChCi 'T' r4
  let r6 ← matchWs1 r5
  let r7 ← matchChCi 'A' r6
  let r8 ← matchWs1 r7
  let r9 ← matchChCi 'L' r8
  let r10 ← matchWs1 r9
  let p ← matchAmount r10
  pure ⟨p.1⟩

/-- The totals of one order as extracted from free text. -/
structure Totales where
  subtotal : Frac
  impuesto : Frac
  total : Frac
deriving DecidableEq

/-- `float(match.group(1).replace(",", ""))` on a matched amount. -/
def amountValue (s : String) : Frac :=
  (pyFloat (removeChar ',' s)).getD Frac.zero

/-- `extractor_oc._extraer_totales_del_texto` (lines 385–420):
tolerant labeled-amount searches with 0.0 defaults; the total prefers
the letter-spaced `T O T A L` pattern and falls back to plain `TOTAL`. -/
def _extraer_totales_del_texto (texto : String) : Totales :=
  let cs := texto.data
  let sub := match scanFirstAux (matchLabeledAmount "Subtotal".data false) cs with
    | some s => amountValue s
    | none => Frac.zero
  let imp := match scanFirstAux (matchLabeledAmount "Impto".data true) cs with
    | some s => amountValue s
    | none => Frac.zero
  let tot := match scanFirstAux matchSpacedTotal cs with
    | some s => amountValue s
    | none =>
      match scanFirstAux (matchLabeledAmount "TOTAL".data false) cs with
      | some s => amountValue s
      | none => Frac.zero
  ⟨sub, imp, tot⟩

/-- The header-level metadata record (`extractor_oc.py` 56–63). -/
structure DatosGenerales where
  proveedor : Option String
  direccionProveedor : Option String
  rnc : Option String
  terminos : Option String
  moneda : String
  codigoSuplidor : Option String
deriving DecidableEq

/-- `str(x).strip() if x else None` on an optional cell. -/
def optCellStrip (c : Option String) : Option String :=
  match c with
  | none => none
  | some s => if s == "" then none else some (pyStrip s)

/-- Vendor-name search (`extractor_oc.py` 70–79): the line after the
first line containing `"Solicitado a:"`, cut before the buyer's fixed
name. -/
def provLoop : List String → Option String
  | [] => none
  | l :: rest =>
    if containsS l "Solicitado a:" then
      match rest with
      | nxt :: _ => some (pyStrip (beforeSub (pyStrip nxt) "SOLUCIONES QUIMICAS"))
      | [] => none
    else provLoop rest

/-- Vendor-address search (`extractor_oc.py` 82–91): first line with an
address marker, cut before the buyer's street anchor. -/
def dirLoop : List String → Option String
  | [] => none
  | l :: rest =>
    if containsS l "AV." || containsS l "C/" then
      some (if containsS l "C/ Jatfres" then pyStrip (beforeSub l "C/ Jatfres") else pyStrip l)
    else dirLoop rest

/-- Structural grid scan (`extractor_oc.py` 94–118): supplier code, tax
id and terms sit two rows below their header row at fixed offsets; the
currency is classified by substring from the cell two rows below a
`"Moneda"` header.  The loop never breaks, so later matches overwrite
earlier ones. -/
def gridMetaLoop : Grid → DatosGenerales → DatosGenerales
  | [], d => d
  | row :: rest, d =>
    if row.isEmpty then gridMetaLoop rest d
    else
      let cell0 := pyCellStr (row.getD 0 none)
      let d1 :=
        if containsS cell0 "Código Suplidor" || containsS cell0 "Codigo Suplidor" then
          match rest.get? 1 with
          | some fila =>
            let dA := if fila.length > 0 then { d with codigoSuplidor := optCellStrip (fila.getD 0 none) } else d
            let dB := if fila.length > 3 then { dA with rnc := optCellStrip (fila.getD 3 none) } else dA
            if fila.length > 9 then { dB with terminos := optCellStrip (fila.getD 9 none) } else dB
          | none => d
        else d
      let d2 :=
        if containsS cell0 "Moneda" then
          match rest.get? 1 with
          | some fila =>
            if fila.length > 3 then
              let monedaRaw := match fila.getD 3 none with
                | none => ""
                | some s => if s == "" then "" else pyStrip s
              if containsS (pyUpper monedaRaw) "USD" || containsS (pyUpper monedaRaw) "US" ||
                  containsS monedaRaw "Extranjera" then
                { d1 with moneda := "USD" }
              else if containsS (pyUpper monedaRaw) "DOP" then
                { d1 with moneda := "DOP" }
              else d1
            else d1
          | none => d1
        else d1
      gridMetaLoop rest d2

/-- `extractor_oc.extraer_datos_generales` (lines 51–123). -/
def extraer_datos_generales (tabla : Grid) (texto : String) : DatosGenerales :=
  let lineas := splitNl texto
  gridMetaLoop tabla ⟨provLoop lineas, dirLoop lineas, none, none, "USD", none⟩

/-! ## Record assembly: `procesar_pagina` -/

/-- One cell of an object-dtype pandas column: a string, a float, or
missing (`None`/`NaN`). -/
inductive Cell
  | na
  | s (v : String)
  | q (v : Frac)
deriving DecidableEq

/-- One row of the 21-column DataFrame `procesar_pagina` returns
(`columnas_orden`, `extractor_oc.py` 362–369). -/
structure DfRow where
  numeroOrden : Cell
  fecha : Cell
  proveedor : Cell
  direccionProveedor : Cell
  rnc : Cell
  terminos : Cell
  moneda : Cell
  codigoSuplidor : Cell
  codigoProducto : Cell
  descripcion : Cell
  cantidad : Cell
  unidad : Cell
  precio : Cell
  descuentoPct : Cell
  impuestoPct : Cell
  importe : Cell
  montoDescuento : Cell
  montoImpuesto : Cell
  totalPorProducto : Cell
  subtotal : Cell
  total : Cell
deriving DecidableEq

/-- Broadcast an optional string into a cell (`df[key] = value` with a
possibly-`None` value). -/
def optCell : Option String → Cell
  | none => Cell.na
  | some s => Cell.s s

/-- `extractor_oc.procesar_pagina` (lines 312–382) given the extracted
page text and grid (the pdfplumber calls of lines 321–336 are the
external boundary).  Metadata and totals are broadcast onto every item
row; note that line 358 assigns the page-level tax to the existing
per-line column `"Monto Impuesto"`, overwriting the parser's values. -/
def procesar_pagina (texto : String) (tabla : Grid) : List DfRow :=
  if texto == "" then []
  else
    let datos := extraer_datos_generales tabla texto
    let nf := extraer_numero_y_fecha texto
    let res := procesar_tabla_productos tabla
    if res.items.isEmpty then []
    else
      let totales := _extraer_totales_del_texto texto
      res.items.map (fun p =>
        { numeroOrden := optCell nf.1
          fecha := optCell nf.2
          proveedor := optCell datos.proveedor
          direccionProveedor := optCell datos.direccionProveedor
          rnc := optCell datos.rnc
          terminos := optCell datos.terminos
          moneda := Cell.s datos.moneda
          codigoSuplidor := optCell datos.codigoSuplidor
          codigoProducto := Cell.s p.codigo
          descripcion := Cell.s p.descripcion
          cantidad := Cell.q p.cantidad
          unidad := Cell.s p.unidad
          precio := Cell.q p.precio
          descuentoPct := Cell.q p.descuentoPct
          impuestoPct := Cell.q p.impuestoPct
          importe := Cell.q p.importe
          montoDescuento := Cell.q p.montoDescuento
          montoImpuesto := Cell.q totales.impuesto
          totalPorProducto := Cell.q p.totalPorProducto
          subtotal := Cell.q totales.subtotal
          total := Cell.q totales.total })

/-! ## Fingerprint generator: `hash_oc.calcular_hash_oc` and its
duplicate `sheets_uploader_oc.calcular_hash_oc` -/

/-- `columnas_producto`: the six item columns both hash functions read
(`hash_oc.py` 56–63, `sheets_uploader_oc.py` 48–50). -/
def columnasProducto : List String :=
  ["Codigo Producto", "Descripcion", "Cantidad", "Unidad", "Precio", "Importe"]

/-- The fixed 21-column schema of an extracted order DataFrame
(`columnas_orden`, `extractor_oc.py` 362–369). -/
def columnasOrden : List String :=
  ["Numero Orden", "Fecha", "Proveedor", "Direccion Proveedor", "RNC", "Terminos",
   "Moneda", "Codigo Suplidor",
   "Codigo Producto", "Descripcion", "Cantidad", "Unidad",
   "Precio", "Descuento %", "Impuesto %", "Importe",
   "Monto Descuento", "Monto Impuesto", "Total por Producto",
   "Subtotal", "Total"]

/-- `cols_disponibles = [c for c in columnas_producto if c in df.columns]`
for a full-schema DataFrame. -/
def colsDisponibles : List String :=
  columnasProducto.filter (fun c => columnasOrden.contains c)

/-- `fillna("").astype(str).str.strip()` on one object cell. -/
def cellBaseStr (c : Cell) : String :=
  match c with
  | Cell.na => ""
  | Cell.s v => pyStrip v
  | Cell.q f => pyStrip (pyStr f)

/-- An integer literal in the sense of `pd.to_numeric` dtype inference:
optional sign and at least one digit.  A column all of whose cleaned
strings are integer literals becomes `int64`, so `astype(str)` prints
them without a decimal point; any other column becomes `float64`. -/
def intLit (s : String) : Bool :=
  match s.data with
  | [] => false
  | c :: t =>
    if c = '-' then !t.isEmpty && t.all isDigitC
    else if c = '+' then !t.isEmpty && t.all isDigitC
    else (c :: t).all isDigitC

/-- Integer value of an integer literal. -/
def intLitVal (s : String) : ℤ :=
  match s.data with
  | [] => 0
  | c :: t =>
    if c = '-' then -(charsToNat t : ℤ)
    else if c = '+' then (charsToNat t : ℤ)
    else (charsToNat (c :: t) : ℤ)

/-- `to_numeric(col.str.replace(",", ""), errors="coerce").fillna(0)
.round(2).astype(str)` on one cleaned cell string, given the inferred
column dtype (`hash_oc.py` 73–76). -/
def numCellStr (isIntCol : Bool) (s : String) : String :=
  if isIntCol then ⟨intToChars (intLitVal s)⟩
  else pyStr (roundTo 2 ((pyFloat (removeChar ',' s)).getD Frac.zero))

/-- Whether a numeric column is inferred as `int64`: every cleaned,
de-comma'd cell string is an integer literal. -/
def colIsIntOf (rows : List DfRow) (proj : DfRow → Cell) : Bool :=
  (rows.map (fun r => removeChar ',' (cellBaseStr (proj r)))).all intLit

/-- One row of `df_hash` after the per-column normalization: the six
hashed columns as strings. -/
structure TransRow where
  cantidad : String
  codigo : String
  descripcion : String
  importe : String
  precio : String
  unidad : String
deriving DecidableEq

/-- Normalize one DataFrame row into its `df_hash` row, given the three
numeric-column dtype flags. -/
def transRow (fc fp fi : Bool) (r : DfRow) : TransRow :=
  { cantidad := numCellStr fc (removeChar ',' (cellBaseStr r.cantidad))
    codigo := cellBaseStr r.codigoProducto
    descripcion := cellBaseStr r.descripcion
    importe := numCellStr fi (removeChar ',' (cellBaseStr r.importe))
    precio := numCellStr fp (removeChar ',' (cellBaseStr r.precio))
    unidad := cellBaseStr r.unidad }

/-- The normalized `df_hash` rows of a record list. -/
def hashTransRows (rows : List DfRow) : List TransRow :=
  let fc := colIsIntOf rows (fun r => r.cantidad)
  let fp := colIsIntOf rows (fun r => r.precio)
  let fi := colIsIntOf rows (fun r => r.importe)
  rows.map (transRow fc fp fi)

/-- `df_hash.sort_values("Codigo Producto")` (`hash_oc.py` 80–81):
stable sort by the normalized product-code string under Python string
order. -/
def sortByCodigo (ts : List TransRow) : List TransRow :=
  List.insertionSort (fun a b => leL a.codigo.data b.codigo.data = true) ts

/-- One product line: the six fields joined with `|` in sorted column
name order (`Cantidad`, `Codigo Producto`, `Descripcion`, `Importe`,
`Precio`, `Unidad` — `hash_oc.py` 85–88). -/
def transLine (t : TransRow) : String :=
  t.cantidad ++ "|" ++ t.codigo ++ "|" ++ t.descripcion ++ "|" ++ t.importe ++ "|" ++ t.precio ++ "|" ++ t.unidad

/-- Join a list of strings with a separator (Python `sep.join`). -/
def joinSep (sep : String) : List String → String
  | [] => ""
  | [x] => x
  | x :: y :: xs => x ++ sep ++ joinSep sep (y :: xs)

/-- Metadata part for the three text columns: `""` for missing, else
`str(val).strip()` (`hash_oc.py` 39–52). -/
def metaTextStr (c : Cell) : String :=
  match c with
  | Cell.na => ""
  | Cell.s v => pyStrip v
  | Cell.q f => pyStrip (pyStr f)

/-- Metadata part for the `Total` column: `f"{float(val):.2f}"` with
fallback to the stripped raw string when `float` raises
(`hash_oc.py` 44–48). -/
def metaTotalStr (c : Cell) : String :=
  match c with
  | Cell.na => ""
  | Cell.q f => format2f f
  | Cell.s v =>
    match pyFloat v with
    | some f => format2f f
    | none => pyStrip v

/-- `meta_str`: the four metadata parts of the first row joined with
`|` (`hash_oc.py` 36–53). -/
def metaStrOf (rows : List DfRow) : String :=
  match rows with
  | [] => ""
  | r :: _ =>
    metaTextStr r.numeroOrden ++ "|" ++ metaTextStr r.fecha ++ "|" ++
      metaTextStr r.proveedor ++ "|" ++ metaTotalStr r.total

/-- `contenido = f"{meta_str}\n{productos_str}"` (`hash_oc.py` 85–91). -/
def hashContenido (rows : List DfRow) : String :=
  metaStrOf rows ++ "\n" ++ joinSep "\n" ((sortByCodigo (hashTransRows rows)).map transLine)

namespace HashOc

/-- `hash_oc.calcular_hash_oc` (lines 17–96): 12-hex-character MD5 of
the canonical serialization; all-zero sentinel for `None` or empty
input.  The `if not cols_disponibles` branch (lines 65–68) hashes the
metadata alone; for the fixed 21-column schema it is never taken. -/
def calcular_hash_oc (df : Option (List DfRow)) : String :=
  match df with
  | none => "000000000000"
  | some rows =>
    if rows.isEmpty then "000000000000"
    else if colsDisponibles.isEmpty then md5Hex12 (metaStrOf rows)
    else md5Hex12 (hashContenido rows)

end HashOc

namespace SheetsUploaderOc

/-- `sheets_uploader_oc.calcular_hash_oc` (lines 22–76), the duplicated
fingerprint implementation: identical normalization, serialization and
digest, differing from `hash_oc` only in logging. -/
def calcular_hash_oc (df : Option (List DfRow)) : String :=
  match df with
  | none => "000000000000"
  | some rows =>
    if rows.isEmpty then "000000000000"
    else if colsDisponibles.isEmpty then md5Hex12 (metaStrOf rows)
    else md5Hex12 (hashContenido rows)

end SheetsUploaderOc

/-! ## Specification-side rounding on rationals -/

/-- Round half to even on the rationals. -/
def roundQE (q : ℚ) : ℤ :=
  if q - ⌊q⌋ < 1 / 2 then ⌊q⌋
  else if 1 / 2 < q - ⌊q⌋ then ⌊q⌋ + 1
  else if ⌊q⌋ % 2 = 0 then ⌊q⌋
  else ⌊q⌋ + 1

/-- `round(x, k)` on the rationals: the specification-side counterpart
of `roundTo`. -/
def roundQ (k : ℕ) (q : ℚ) : ℚ :=
  (roundQE (q * 10 ^ k) : ℚ) / 10 ^ k

/-! ## Equivalence predicates used by the hash claims -/

/-- Equality of the ten columns the fingerprint reads (four metadata
columns of the first row and six item columns); the other eleven
columns of the schema are unconstrained. -/
def usedFieldsEq (r1 r2 : DfRow) : Prop :=
  r1.numeroOrden = r2.numeroOrden ∧ r1.fecha = r2.fecha ∧
    r1.proveedor = r2.proveedor ∧ r1.total = r2.total ∧
    r1.codigoProducto = r2.codigoProducto ∧ r1.descripcion = r2.descripcion ∧
    r1.cantidad = r2.cantidad ∧ r1.unidad = r2.unidad ∧
    r1.precio = r2.precio ∧ r1.importe = r2.importe

/-- Two numeric cells are formatting variants of each other: after
cleaning (strip, de-comma) they have the same integer-literal shape —
pandas dtype inference — and parse to the same value. -/
def numCellEquiv (a b : Cell) : Prop :=
  intLit (removeChar ',' (cellBaseStr a)) = intLit (removeChar ',' (cellBaseStr b)) ∧
    (pyFloat (removeChar ',' (cellBaseStr a))).map Frac.val =
      (pyFloat (removeChar ',' (cellBaseStr b))).map Frac.val

/-- Two text cells agree up to leading/trailing whitespace (and float
printing). -/
def textCellEquiv (a b : Cell) : Prop :=
  cellBaseStr a = cellBaseStr b

/-- Two records are formatting variants of each other in every column
the fingerprint reads. -/
def recEquiv (r1 r2 : DfRow) : Prop :=
  numCellEquiv r1.cantidad r2.cantidad ∧ numCellEquiv r1.precio r2.precio ∧
    numCellEquiv r1.importe r2.importe ∧
    textCellEquiv r1.codigoProducto r2.codigoProducto ∧
    textCellEquiv r1.descripcion r2.descripcion ∧
    textCellEquiv r1.unidad r2.unidad ∧
    metaTextStr r1.numeroOrden = metaTextStr r2.numeroOrden ∧
    metaTextStr r1.fecha = metaTextStr r2.fecha ∧
    metaTextStr r1.proveedor = metaTextStr r2.proveedor ∧
    metaTotalStr r1.total = metaTotalStr r2.total

/-! ## Concrete fixtures for the counterexamples and witnesses -/

/-- The scenario grid of the printed-extended-amount policy: header row
plus one item row with qty 10, price 5.00, discount 10 %, tax 0 %, and
printed extended amount 45.00 (deliberately not `10 × 5.00`). -/
def gC5 : Grid :=
  [[some "Itm", some "Codigo", some "Descripcion"],
   [some "1", some "SKU1", some "Widget A", none, none, some "10", some "UN", none,
    some "5.00", none, some "10", some "0", none, some "45.00"]]

/-- A grid with an item row missing its description (column 2 empty). -/
def gC6 : Grid :=
  [[some "Itm"],
   [some "1", some "SKU1", none, none, none, some "10", none, none,
    some "5.00", none, none, none, none, some "50.00"]]

/-- A grid whose terminator row also carries text in the description
column, followed by a further item row that must never be scanned. -/
def gC7 : Grid :=
  [[some "Itm"],
   [some "1", some "SKU1", some "Desc", none, none, some "10", some "UN", none,
    some "5.00", none, none, none, none, some "50.00"],
   [some "TOTAL", none, some "Extra"],
   [some "2", some "SKU2", some "After", none, none, some "1", none, none,
    some "1", none, none, none, none, some "1"]]

/-- A grid with no header row at all. -/
def gC9 : Grid :=
  [[some "Nada", some "x"], [], [some " itm "]]

/-- The page grid of the `Monto Impuesto` overwrite counterexample:
one item with extended amount 45.00 and tax 10 %, so the parser derives
a per-line tax amount of 4.5. -/
def tabC2 : Grid :=
  [[some "Itm"],
   [some "1", some "SKU1", some "Widget", none, none, some "10", some "UN", none,
    some "5.00", none, some "0", some "10", none, some "45.00"]]

/-- The page text of the same counterexample: the totals resolver finds
`Impto. 99.00`, which `procesar_pagina` broadcasts into the per-line
`Monto Impuesto` column. -/
def texC2 : String :=
  "N° Orden: 123\nFecha 01/02/2024\nSubtotal 45.00\nImpto. 99.00\nT O T A L 999.00"

/-- A record with every cell missing. -/
def naRow : DfRow :=
  ⟨Cell.na, Cell.na, Cell.na, Cell.na, Cell.na, Cell.na, Cell.na, Cell.na,
   Cell.na, Cell.na, Cell.na, Cell.na, Cell.na, Cell.na, Cell.na, Cell.na,
   Cell.na, Cell.na, Cell.na, Cell.na, Cell.na⟩

/-- First record of the tied-product-code pair. -/
def rowAx : DfRow :=
  { naRow with codigoProducto := Cell.s "A", descripcion := Cell.s "x" }

/-- Second record of the tied-product-code pair: same code `"A"`,
different description. -/
def rowAy : DfRow :=
  { naRow with codigoProducto := Cell.s "A", descripcion := Cell.s "y" }

/-- A record whose quantity cell is the string `"100"`. -/
def rowQint : DfRow :=
  { naRow with codigoProducto := Cell.s "A", cantidad := Cell.s "100" }

/-- The same record with quantity `"100.00"` — the spec's canonical
formatting-only variant. -/
def rowQflo : DfRow :=
  { naRow with codigoProducto := Cell.s "A", cantidad := Cell.s "100.00" }

/-- A typical extracted record (float cells) used by the discount-amount
counterexample; `Monto Descuento` is 10. -/
def rowMd1 : DfRow :=
  { naRow with
    numeroOrden := Cell.s "123", codigoProducto := Cell.s "SKU1",
    descripcion := Cell.s "Widget", cantidad := Cell.q ⟨10, 1, Nat.one_pos⟩,
    unidad := Cell.s "UN", precio := Cell.q ⟨5, 1, Nat.one_pos⟩,
    importe := Cell.q ⟨50, 1, Nat.one_pos⟩,
    montoDescuento := Cell.q ⟨10, 1, Nat.one_pos⟩,
    subtotal := Cell.q ⟨50, 1, Nat.one_pos⟩ }

/-- The same record with `Monto Descuento` 99 — a change far beyond the
2-decimal rounding tolerance. -/
def rowMd2 : DfRow :=
  { rowMd1 with montoDescuento := Cell.q ⟨99, 1, Nat.one_pos⟩ }

/-- Formatting-variant pair, first version: float cells and padded
strings. -/
def rowFmt1 : DfRow :=
  { naRow with
    numeroOrden := Cell.s " 123 ", proveedor := Cell.s "ACME",
    total := Cell.q ⟨1000, 1, Nat.one_pos⟩,
    codigoProducto := Cell.s "A", descripcion := Cell.s " Widget ",
    cantidad := Cell.s " 1,000.50 ", precio := Cell.q ⟨5, 2, by decide⟩,
    unidad := Cell.s "UN" }

/-- Formatting-variant pair, second version: same values written
differently (`"1000.5"`, `"2.50"`, total as a string). -/
def rowFmt2 : DfRow :=
  { naRow with
    numeroOrden := Cell.s "123", proveedor := Cell.s " ACME ",
    total := Cell.s "1000.0",
    codigoProducto := Cell.s "A", descripcion := Cell.s "Widget",
    cantidad := Cell.s "1000.5", precio := Cell.s "2.50",
    unidad := Cell.s " UN " }

/-- Two-record list with distinct product codes, for the
order-independence witness. -/
def rowB1 : DfRow :=
  { naRow with
    codigoProducto := Cell.s "B1", descripcion := Cell.s "first",
    total := Cell.q ⟨7, 1, Nat.one_pos⟩ }

/-- Second record with a distinct product code. -/
def rowB2 : DfRow :=
  { naRow with
    codigoProducto := Cell.s "B2", descripcion := Cell.s "second",
    total := Cell.q ⟨7, 1, Nat.one_pos⟩ }

/-- A default item row (used to name the first item of a concrete
parse). -/
def defaultProdRow : ProdRow :=
  ⟨"", "", Frac.zero, "", Frac.zero, Frac.zero, Frac.zero, Frac.zero,
   Frac.zero, Frac.zero, Frac.zero⟩

/-- Value of a digit list, least significant digit first (proof-side
inverse of `natDigitsRev`). -/
def ofDigitsRev (ds : List ℕ) : ℕ :=
  ds.foldr (fun d acc => d + 10 * acc) 0

/-- Numerator/denominator view of a float cell (0/0 otherwise), used to
state concrete evaluations without mentioning proof fields. -/
def cellNumDen : Cell → ℤ × ℕ
  | Cell.q f => (f.num, f.den)
  | _ => (0, 0)

/-- The single item extracted from the policy-scenario grid. -/
def gC5item : ProdRow :=
  (procesar_tabla_productos gC5).items.getD 0 defaultProdRow

/-- The single record produced by the overwrite-counterexample page. -/
def c2row : DfRow :=
  (procesar_pagina texC2 tabC2).getD 0 naRow

/-- The single item of the missing-description grid. -/
def gC6item : ProdRow :=
  (procesar_tabla_productos gC6).items.getD 0 defaultProdRow

/-! ## Lemmas: fraction denotation and rounding -/

theorem Frac.den_ne_zeroQ (f : Frac) : ((f.den : ℚ)) ≠ 0 := by
  exact_mod_cast f.pos.ne'

theorem Frac.val_add (a b : Frac) : (a.add b).val = a.val + b.val := by
  have ha := a.den_ne_zeroQ
  have hb := b.den_ne_zeroQ
  unfold Frac.add Frac.val
  push_cast
  field_simp
  try ring

theorem Frac.val_sub (a b : Frac) : (a.sub b).val = a.val - b.val := by
  have ha := a.den_ne_zeroQ
  have hb := b.den_ne_zeroQ
  unfold Frac.sub Frac.val
  push_cast
  field_simp
  try ring

theorem Frac.val_mul (a b : Frac) : (a.mul b).val = a.val * b.val := by
  have ha := a.den_ne_zeroQ
  have hb := b.den_ne_zeroQ
  unfold Frac.mul Frac.val
  push_cast
  field_simp

theorem Frac.val_divNat (a : Frac) (n : ℕ) (h : 0 < n) :
    (a.divNat n h).val = a.val / n := by
  have ha := a.den_ne_zeroQ
  have hn : ((n : ℚ)) ≠ 0 := by exact_mod_cast h.ne'
  unfold Frac.divNat Frac.val
  push_cast
  field_simp

theorem Frac.val_mulPow10 (k : ℕ) (a : Frac) :
    (a.mulPow10 k).val = a.val * 10 ^ k := by
  unfold Frac.mulPow10 Frac.val
  push_cast
  ring

theorem Frac.val_zero : Frac.zero.val = 0 := by
  unfold Frac.zero Frac.val
  norm_num

theorem Frac.val_ofInt (n : ℤ) : (Frac.ofInt n).val = n := by
  unfold Frac.ofInt Frac.val
  norm_num

theorem Frac.fdiv_floor (f : Frac) : Int.fdiv f.num (f.den : ℤ) = ⌊f.val⌋ := by
  rw [Int.fdiv_eq_ediv _ (Int.natCast_nonneg f.den), Frac.val,
    Rat.floor_intCast_div_natCast]

theorem Frac.fract_eq (f : Frac) :
    f.val - (⌊f.val⌋ : ℚ) = ((f.num - ⌊f.val⌋ * f.den : ℤ) : ℚ) / (f.den : ℚ) := by
  have ha := f.den_ne_zeroQ
  have hv : f.val = (f.num : ℚ) / (f.den : ℚ) := rfl
  push_cast
  rw [hv]
  field_simp
  ring

theorem Frac.roundEven_eq (f : Frac) : f.roundEven = roundQE f.val := by
  have hd0 : (0 : ℚ) < (f.den : ℚ) := by exact_mod_cast f.pos
  have hq := f.fdiv_floor
  have hfr := f.fract_eq
  have h1 : (2 * (f.num - ⌊f.val⌋ * f.den) < (f.den : ℤ)) ↔ (f.val - ⌊f.val⌋ < 1 / 2) := by
    rw [hfr, div_lt_iff₀ hd0]
    constructor
    · intro h
      have h2 : ((2 * (f.num - ⌊f.val⌋ * f.den) : ℤ) : ℚ) < ((f.den : ℤ) : ℚ) := by
        exact_mod_cast h
      push_cast at h2 ⊢
      linarith
    · intro h
      have h2 : ((2 * (f.num - ⌊f.val⌋ * f.den) : ℤ) : ℚ) < ((f.den : ℤ) : ℚ) := by
        push_cast at h ⊢
        linarith
      exact_mod_cast h2
  have h2 : ((f.den : ℤ) < 2 * (f.num - ⌊f.val⌋ * f.den)) ↔ (1 / 2 < f.val - ⌊f.val⌋) := by
    rw [hfr, lt_div_iff₀ hd0]
    constructor
    · intro h
      have h3 : ((f.den : ℤ) : ℚ) < ((2 * (f.num - ⌊f.val⌋ * f.den) : ℤ) : ℚ) := by
        exact_mod_cast h
      push_cast at h3 ⊢
      linarith
    · intro h
      have h3 : ((f.den : ℤ) : ℚ) < ((2 * (f.num - ⌊f.val⌋ * f.den) : ℤ) : ℚ) := by
        push_cast at h ⊢
        linarith
      exact_mod_cast h3
  unfold Frac.roundEven roundQE
  simp only [hq]
  split_ifs with a1 b1 b2 a2 b3 b4 b5 b6 <;> first
    | rfl
    | (exact absurd (h1.mp (by assumption)) (by assumption))
    | (exact absurd (h1.mpr (by assumption)) (by assumption))
    | (exact absurd (h2.mp (by assumption)) (by assumption))
    | (exact absurd (h2.mpr (by assumption)) (by assumption))

theorem roundTo_val (k : ℕ) (f : Frac) : (roundTo k f).val = roundQ k f.val := by
  have hv : (roundTo k f).val = ((f.mulPow10 k).roundEven : ℚ) / ((10 ^ k : ℕ) : ℚ) := rfl
  rw [hv, Frac.roundEven_eq, Frac.val_mulPow10]
  unfold roundQ
  push_cast
  ring

theorem roundTo_congr (k : ℕ) {a b : Frac} (h : a.val = b.val) :
    roundTo k a = roundTo k b := by
  have he : (a.mulPow10 k).roundEven = (b.mulPow10 k).roundEven := by
    rw [Frac.roundEven_eq, Frac.roundEven_eq, Frac.val_mulPow10, Frac.val_mulPow10, h]
  simp [roundTo, he]

theorem abs_sub_roundQE (q : ℚ) : |q - roundQE q| ≤ 1 / 2 := by
  have h0 : ((⌊q⌋ : ℤ) : ℚ) ≤ q := Int.floor_le q
  have h1 : q < ⌊q⌋ + 1 := Int.lt_floor_add_one q
  unfold roundQE
  split_ifs with c1 c2 c3 <;> rw [abs_le] <;> push_cast <;>
    constructor <;> first
      | linarith
      | (rw [not_lt] at c1 c2; linarith)
      | (rw [not_lt] at c1; linarith)

theorem roundQE_ne {a b : ℚ} (h : 1 < |a - b|) : roundQE a ≠ roundQE b := by
  intro he
  have ha := abs_sub_roundQE a
  have hb := abs_sub_roundQE b
  rw [he] at ha
  have htri : |a - b| ≤ |a - (roundQE b : ℚ)| + |(roundQE b : ℚ) - b| := abs_sub_le _ _ _
  rw [abs_sub_comm (roundQE b : ℚ) b] at htri
  linarith

theorem roundQ2_ne {a b : ℚ} (h : 1 / 100 < |a - b|) : roundQ 2 a ≠ roundQ 2 b := by
  intro he
  unfold roundQ at he
  have h100 : ((10 : ℚ) ^ 2) ≠ 0 := by norm_num
  have he2 : ((roundQE (a * 10 ^ 2) : ℤ) : ℚ) = ((roundQE (b * 10 ^ 2) : ℤ) : ℚ) := by
    field_simp at he
    exact_mod_cast he
  have he3 : roundQE (a * 10 ^ 2) = roundQE (b * 10 ^ 2) := by exact_mod_cast he2
  have hgap : 1 < |a * 10 ^ 2 - b * 10 ^ 2| := by
    have : a * 10 ^ 2 - b * 10 ^ 2 = (a - b) * 100 := by ring
    rw [this, abs_mul]
    rw [show |(100 : ℚ)| = 100 by norm_num]
    linarith
  exact roundQE_ne hgap he3

theorem roundTo2_val_ne {x y : Frac} (h : 1 / 100 < |x.val - y.val|) :
    (roundTo 2 x).val ≠ (roundTo 2 y).val := by
  rw [roundTo_val, roundTo_val]
  exact roundQ2_ne h

/-! ## Lemmas: decimal printing of naturals round-trips -/

theorem ofDigitsRev_natDigitsRevAux :
    ∀ fuel n : ℕ, n ≤ fuel → ofDigitsRev (natDigitsRevAux fuel n) = n := by
  intro fuel
  induction fuel with
  | zero =>
    intro n h
    interval_cases n
    simp [natDigitsRevAux, ofDigitsRev]
  | succ fuel ih =>
    intro n h
    by_cases h0 : n = 0
    · simp [natDigitsRevAux, h0, ofDigitsRev]
    · have hlt : n / 10 ≤ fuel := by
        have : n / 10 < n := Nat.div_lt_self (Nat.pos_of_ne_zero h0) (by norm_num)
        omega
      have hrec := ih (n / 10) hlt
      simp only [natDigitsRevAux, h0, if_false, ofDigitsRev, List.foldr_cons]
      rw [show (natDigitsRevAux fuel (n / 10)).foldr (fun d acc => d + 10 * acc) 0 =
        ofDigitsRev (natDigitsRevAux fuel (n / 10)) from rfl, hrec]
      omega

theorem natDigitsRevAux_lt10 :
    ∀ fuel n d : ℕ, d ∈ natDigitsRevAux fuel n → d < 10 := by
  intro fuel
  induction fuel with
  | zero => intro n d h; simp [natDigitsRevAux] at h
  | succ fuel ih =>
    intro n d h
    by_cases h0 : n = 0
    · simp [natDigitsRevAux, h0] at h
    · simp only [natDigitsRevAux, h0, if_false, List.mem_cons] at h
      rcases h with h | h
      · omega
      · exact ih _ _ h

theorem digitCh_sub48 {d : ℕ} (h : d < 10) : (digitCh d).toNat - 48 = d := by
  interval_cases d <;> decide

theorem isDigitC_digitCh {d : ℕ} (h : d < 10) : isDigitC (digitCh d) = true := by
  interval_cases d <;> decide

theorem charsToNat_foldl_acc (b : List Char) :
    ∀ acc : ℕ, b.foldl (fun acc c => 10 * acc + (c.toNat - 48)) acc =
      acc * 10 ^ b.length + charsToNat b := by
  induction b with
  | nil => intro acc; simp [charsToNat]
  | cons c t ih =>
    intro acc
    simp only [List.foldl_cons, List.length_cons, charsToNat]
    rw [ih (10 * acc + (c.toNat - 48)), ih (10 * 0 + (c.toNat - 48))]
    ring

theorem charsToNat_append (a b : List Char) :
    charsToNat (a ++ b) = charsToNat a * 10 ^ b.length + charsToNat b := by
  unfold charsToNat
  rw [List.foldl_append]
  exact charsToNat_foldl_acc b _

theorem charsToNat_digitCh_map (ds : List ℕ) (h : ∀ d ∈ ds, d < 10) :
    charsToNat ((ds.reverse).map digitCh) = ofDigitsRev ds := by
  induction ds with
  | nil => simp [charsToNat, ofDigitsRev]
  | cons d t ih =>
    have hd : d < 10 := h d (by simp)
    have ht : ∀ x ∈ t, x < 10 := fun x hx => h x (by simp [hx])
    simp only [List.reverse_cons, List.map_append, List.map_cons, List.map_nil]
    rw [charsToNat_append, ih ht]
    rw [show charsToNat [digitCh d] = 10 * 0 + ((digitCh d).toNat - 48) by rfl]
    rw [digitCh_sub48 hd]
    simp only [ofDigitsRev, List.foldr_cons, List.length_cons, List.length_nil]
    ring

theorem charsToNat_natToChars (n : ℕ) : charsToNat (natToChars n) = n := by
  by_cases h0 : n = 0
  · subst h0; decide
  · unfold natToChars natDigitsRev
    rw [if_neg h0]
    rw [charsToNat_digitCh_map _ (fun d hd => natDigitsRevAux_lt10 n n d hd)]
    exact ofDigitsRev_natDigitsRevAux n n le_rfl

theorem natToChars_digits (n : ℕ) : ∀ c ∈ natToChars n, isDigitC c = true := by
  by_cases h0 : n = 0
  · subst h0; decide
  · unfold natToChars natDigitsRev
    rw [if_neg h0]
    intro c hc
    rcases List.mem_map.mp hc with ⟨d, hd, rfl⟩
    exact isDigitC_digitCh (natDigitsRevAux_lt10 n n d (List.mem_reverse.mp hd))

theorem natToChars_ne_nil (n : ℕ) : natToChars n ≠ [] := by
  by_cases h0 : n = 0
  · subst h0; decide
  · unfold natToChars natDigitsRev
    rw [if_neg h0]
    rcases n with _ | m
    · exact absurd rfl h0
    · simp only [natDigitsRevAux, h0, if_false]
      simp

theorem charsToNat_zeros (z : ℕ) (a : List Char) :
    charsToNat (List.replicate z '0' ++ a) = charsToNat a := by
  rw [charsToNat_append]
  have hz : charsToNat (List.replicate z '0') = 0 := by
    induction z with
    | zero => decide
    | succ m ih =>
      simp only [List.replicate_succ, charsToNat, List.foldl_cons]
      simpa [charsToNat] using ih
  rw [hz]
  ring

/-! ## Lemmas: takeWhile/dropWhile/strip on classified characters -/

theorem takeWhile_all_append {p : Char → Bool} {a : List Char} (b : List Char)
    (h : ∀ c ∈ a, p c = true) : (a ++ b).takeWhile p = a ++ b.takeWhile p := by
  induction a with
  | nil => simp
  | cons x t ih =>
    have hx : p x = true := h x (by simp)
    have ht : ∀ c ∈ t, p c = true := fun c hc => h c (by simp [hc])
    simp [List.takeWhile_cons, hx, ih ht]

theorem dropWhile_all_append {p : Char → Bool} {a : List Char} (b : List Char)
    (h : ∀ c ∈ a, p c = true) : (a ++ b).dropWhile p = b.dropWhile p := by
  induction a with
  | nil => simp
  | cons x t ih =>
    have hx : p x = true := h x (by simp)
    have ht : ∀ c ∈ t, p c = true := fun c hc => h c (by simp [hc])
    simp [List.dropWhile_cons, hx, ih ht]

theorem takeWhile_all_self {p : Char → Bool} {a : List Char}
    (h : ∀ c ∈ a, p c = true) : a.takeWhile p = a := by
  have := takeWhile_all_append (p := p) (a := a) [] h
  simpa using this

theorem dropWhile_all_nil {p : Char → Bool} {a : List Char}
    (h : ∀ c ∈ a, p c = true) : a.dropWhile p = [] := by
  have := dropWhile_all_append (p := p) (a := a) [] h
  simpa using this

theorem dropWhile_head_false {p : Char → Bool} {a : List Char}
    (h : ∀ c ∈ a, p c = false) : a.dropWhile p = a := by
  cases a with
  | nil => rfl
  | cons x t => simp [List.dropWhile_cons, h x (by simp)]

theorem stripL_no_space {cs : List Char}
    (h : ∀ c ∈ cs, isPySpace c = false) : stripL cs = cs := by
  unfold stripL
  rw [dropWhile_head_false h]
  rw [dropWhile_head_false (fun c hc => h c (List.mem_reverse.mp hc))]
  exact List.reverse_reverse cs

theorem isPySpace_of_isDigitC {c : Char} (h : isDigitC c = true) :
    isPySpace c = false := by
  by_contra hne
  have hsp : isPySpace c = true := by
    revert hne
    cases isPySpace c <;> simp
  unfold isPySpace at hsp
  simp only [Bool.or_eq_true, decide_eq_true_eq] at hsp
  rcases hsp with ((((h1 | h1) | h1) | h1) | h1) | h1 <;> subst h1 <;> simp_all [isDigitC]

/-! ## Lemmas: printing and re-parsing Python floats -/

theorem renderPad_digits (m k : ℕ) :
    ∀ c ∈ (if (natToChars m).length ≤ k then
        List.replicate (k + 1 - (natToChars m).length) '0' ++ natToChars m
      else natToChars m), isDigitC c = true := by
  intro c hc
  split at hc
  · rcases List.mem_append.mp hc with h | h
    · rw [List.eq_of_mem_replicate h]; decide
    · exact natToChars_digits m c h
  · exact natToChars_digits m c hc

theorem pyFloatL_dotted (A B : List Char) (hA : ∀ c ∈ A, isDigitC c = true)
    (hB : ∀ c ∈ B, isDigitC c = true) (hBne : B ≠ []) :
    ∃ g : Frac, pyFloatL (A ++ '.' :: B) = some g ∧
      g.num = ((charsToNat A * 10 ^ B.length + charsToNat B : ℕ) : ℤ) ∧
      g.den = 10 ^ B.length := by
  have hnospace : ∀ c ∈ A ++ '.' :: B, isPySpace c = false := by
    intro c hc
    rcases List.mem_append.mp hc with h | h
    · exact isPySpace_of_isDigitC (hA c h)
    · rcases List.mem_cons.mp h with rfl | h
      · decide
      · exact isPySpace_of_isDigitC (hB c h)
  have hstrip : stripL (A ++ '.' :: B) = A ++ '.' :: B := stripL_no_space hnospace
  have hsign : parseSign (A ++ '.' :: B) = (false, A ++ '.' :: B) := by
    cases A with
    | nil => simp [parseSign]
    | cons a t =>
      have hd : isDigitC a = true := hA a (by simp)
      have ha1 : ¬(a = '-') := by intro h; subst h; exact absurd hd (by decide)
      have ha2 : ¬(a = '+') := by intro h; subst h; exact absurd hd (by decide)
      simp [parseSign, ha1, ha2]
  have hdot : isDigitC '.' = false := by decide
  have hip : (A ++ '.' :: B).takeWhile isDigitC = A := by
    rw [takeWhile_all_append _ hA]
    simp [List.takeWhile_cons, hdot]
  have hrest1 : (A ++ '.' :: B).dropWhile isDigitC = '.' :: B := by
    rw [dropWhile_all_append _ hA]
    simp [List.dropWhile_cons, hdot]
  have hfp : B.takeWhile isDigitC = B := takeWhile_all_self hB
  have hrest2 : B.dropWhile isDigitC = [] := dropWhile_all_nil hB
  have hBemp : B.isEmpty = false := by
    cases B with
    | nil => exact absurd rfl hBne
    | cons h t => rfl
  have hcalc : pyFloatL (A ++ '.' :: B) =
      some ⟨((charsToNat A * 10 ^ B.length + charsToNat B : ℕ) : ℤ), 10 ^ B.length,
        Nat.pos_pow_of_pos _ (by decide)⟩ := by
    unfold pyFloatL
    rw [hstrip]
    simp only [hsign, hip, hrest1, hfp, hrest2, hBemp, if_true, Bool.and_false,
      Bool.false_eq_true, if_false]
  exact ⟨_, hcalc, rfl, rfl⟩

theorem pyFloatL_neg_dotted (A B : List Char) (hA : ∀ c ∈ A, isDigitC c = true)
    (hB : ∀ c ∈ B, isDigitC c = true) (hBne : B ≠ []) :
    ∃ g : Frac, pyFloatL ('-' :: (A ++ '.' :: B)) = some g ∧
      g.num = -((charsToNat A * 10 ^ B.length + charsToNat B : ℕ) : ℤ) ∧
      g.den = 10 ^ B.length := by
  have hnospace : ∀ c ∈ '-' :: (A ++ '.' :: B), isPySpace c = false := by
    intro c hc
    rcases List.mem_cons.mp hc with rfl | hc
    · decide
    rcases List.mem_append.mp hc with h | h
    · exact isPySpace_of_isDigitC (hA c h)
    · rcases List.mem_cons.mp h with rfl | h
      · decide
      · exact isPySpace_of_isDigitC (hB c h)
  have hstrip : stripL ('-' :: (A ++ '.' :: B)) = '-' :: (A ++ '.' :: B) :=
    stripL_no_space hnospace
  have hsign : parseSign ('-' :: (A ++ '.' :: B)) = (true, A ++ '.' :: B) := by
    simp [parseSign]
  have hdot : isDigitC '.' = false := by decide
  have hip : (A ++ '.' :: B).takeWhile isDigitC = A := by
    rw [takeWhile_all_append _ hA]
    simp [List.takeWhile_cons, hdot]
  have hrest1 : (A ++ '.' :: B).dropWhile isDigitC = '.' :: B := by
    rw [dropWhile_all_append _ hA]
    simp [List.dropWhile_cons, hdot]
  have hfp : B.takeWhile isDigitC = B := takeWhile_all_self hB
  have hrest2 : B.dropWhile isDigitC = [] := dropWhile_all_nil hB
  have hBemp : B.isEmpty = false := by
    cases B with
    | nil => exact absurd rfl hBne
    | cons h t => rfl
  have hcalc : pyFloatL ('-' :: (A ++ '.' :: B)) =
      some ⟨-((charsToNat A * 10 ^ B.length + charsToNat B : ℕ) : ℤ), 10 ^ B.length,
        Nat.pos_pow_of_pos _ (by decide)⟩ := by
    unfold pyFloatL
    rw [hstrip]
    simp only [hsign, hip, hrest1, hfp, hrest2, hBemp, if_true, Bool.and_false,
      Bool.false_eq_true, if_false]
  exact ⟨_, hcalc, rfl, rfl⟩

theorem renderCents_value (n : ℤ) (k : ℕ) :
    ∃ A B : List Char, (∀ c ∈ A, isDigitC c = true) ∧ (∀ c ∈ B, isDigitC c = true) ∧
      B ≠ [] ∧ renderCents n k = (if n < 0 then ['-'] else []) ++ (A ++ '.' :: B) ∧
      ((charsToNat A * 10 ^ B.length + charsToNat B : ℕ) : ℚ) / ((10 ^ B.length : ℕ) : ℚ) =
        (n.natAbs : ℚ) / 10 ^ k := by
  by_cases hk : k = 0
  · subst hk
    refine ⟨natToChars n.natAbs, ['0'], natToChars_digits _, by decide, by simp, ?_, ?_⟩
    · unfold renderCents
      simp
    · rw [charsToNat_natToChars, show charsToNat ['0'] = 0 from by decide]
      push_cast
      norm_num
  · set m := n.natAbs with hm
    set ds := natToChars m with hds
    set pad := if ds.length ≤ k then List.replicate (k + 1 - ds.length) '0' ++ ds else ds with hpad
    have hpadlen : k + 1 ≤ pad.length := by
      rw [hpad]
      split
      · simp only [List.length_append, List.length_replicate]
        omega
      · omega
    have hpaddig : ∀ c ∈ pad, isDigitC c = true := by
      rw [hpad]
      intro c hc
      split at hc
      · rcases List.mem_append.mp hc with h | h
        · rw [List.eq_of_mem_replicate h]; decide
        · exact natToChars_digits m c h
      · exact natToChars_digits m c hc
    have hcpad : charsToNat pad = m := by
      rw [hpad]
      split
      · rw [charsToNat_zeros, charsToNat_natToChars]
      · rw [charsToNat_natToChars]
    refine ⟨pad.take (pad.length - k), pad.drop (pad.length - k), ?_, ?_, ?_, ?_, ?_⟩
    · intro c hc; exact hpaddig c (List.take_subset _ _ hc)
    · intro c hc; exact hpaddig c (List.drop_subset _ _ hc)
    · have : (pad.drop (pad.length - k)).length = k := by
        rw [List.length_drop]
        omega
      intro he
      rw [he] at this
      simp at this
      omega
    · unfold renderCents
      rw [if_neg hk]
      simp only [List.append_assoc]
    · have hlen : (pad.drop (pad.length - k)).length = k := by
        rw [List.length_drop]
        omega
      rw [hlen]
      rw [show charsToNat (pad.take (pad.length - k)) * 10 ^ k + charsToNat (pad.drop (pad.length - k)) =
        charsToNat (pad.take (pad.length - k) ++ pad.drop (pad.length - k)) by
          rw [charsToNat_append, hlen]]
      rw [List.take_append_drop, hcpad]
      push_cast
      ring

theorem decExp_spec {f : Frac} {k : ℕ} (h : decExp f = some k) :
    (f.num * (10 : ℤ) ^ k) % (f.den : ℤ) = 0 := by
  have h2 := List.find?_some h
  simpa using h2

theorem pyFloat_pyStr {f : Frac} {k : ℕ} (h : decExp f = some k) :
    ∃ g : Frac, pyFloat (pyStr f) = some g ∧ g.val = f.val := by
  set n := Int.fdiv (f.num * 10 ^ k) (f.den : ℤ) with hn
  have hmod := decExp_spec h
  have hdvd : (f.den : ℤ) ∣ f.num * 10 ^ k := Int.dvd_of_emod_eq_zero hmod
  have hexact : n * (f.den : ℤ) = f.num * 10 ^ k := by
    rw [hn, Int.fdiv_eq_ediv _ (Int.natCast_nonneg _)]
    exact Int.ediv_mul_cancel hdvd
  have hd := f.den_ne_zeroQ
  have h10 : ((10 : ℚ)) ^ k ≠ 0 := by positivity
  have hval : (n : ℚ) / 10 ^ k = f.val := by
    rw [show f.val = (f.num : ℚ) / (f.den : ℚ) from rfl, div_eq_div_iff h10 hd]
    exact_mod_cast hexact
  rcases renderCents_value n k with ⟨A, B, hA, hB, hBne, hshape, hvalue⟩
  have hps : pyStr f = ⟨renderCents n k⟩ := by unfold pyStr; rw [h]
  have hD : ((10 ^ B.length : ℕ) : ℚ) ≠ 0 := by positivity
  have h2 : ((charsToNat A * 10 ^ B.length + charsToNat B : ℕ) : ℚ) * 10 ^ k =
      (n.natAbs : ℚ) * ((10 ^ B.length : ℕ) : ℚ) := by
    rw [div_eq_div_iff hD h10] at hvalue
    exact hvalue
  by_cases hneg : n < 0
  · rw [if_pos hneg] at hshape
    rcases pyFloatL_neg_dotted A B hA hB hBne with ⟨g, hg, hgnum, hgden⟩
    refine ⟨g, ?_, ?_⟩
    · rw [hps]
      unfold pyFloat
      rw [show (String.mk (renderCents n k)).data = renderCents n k from rfl, hshape]
      exact hg
    · have habs : ((n.natAbs : ℕ) : ℚ) = -(n : ℚ) := by
        rw [Int.cast_natAbs, abs_of_neg hneg]
        push_cast
        ring
      rw [show g.val = (g.num : ℚ) / (g.den : ℚ) from rfl, hgnum, hgden, ← hval,
        div_eq_div_iff (by positivity) h10]
      push_cast
      push_cast at h2 habs
      rw [habs] at h2
      linear_combination -h2
  · rw [if_neg hneg] at hshape
    rcases pyFloatL_dotted A B hA hB hBne with ⟨g, hg, hgnum, hgden⟩
    refine ⟨g, ?_, ?_⟩
    · rw [hps]
      unfold pyFloat
      rw [show (String.mk (renderCents n k)).data = renderCents n k from rfl, hshape]
      simpa using hg
    · have habs : ((n.natAbs : ℕ) : ℚ) = (n : ℚ) := by
        rw [Int.cast_natAbs, abs_of_nonneg (not_lt.mp hneg)]
      rw [show g.val = (g.num : ℚ) / (g.den : ℚ) from rfl, hgnum, hgden, ← hval,
        div_eq_div_iff (by positivity) h10]
      push_cast
      push_cast at h2 habs
      rw [habs] at h2
      linear_combination h2

/-! ## Lemmas: shape of printed floats and integer literals -/

theorem all_false_of_dot {t : List Char} (hdot : '.' ∈ t) : t.all isDigitC = false := by
  by_contra hne
  have h1 : t.all isDigitC = true := by revert hne; cases t.all isDigitC <;> simp
  exact absurd (List.all_eq_true.mp h1 '.' hdot) (by decide)

theorem pyStr_data_shape {f : Frac} {k : ℕ} (h : decExp f = some k) :
    ∃ sg a b : List Char, (sg = ['-'] ∨ sg = []) ∧ (∀ c ∈ a, isDigitC c = true) ∧
      (∀ c ∈ b, isDigitC c = true) ∧ (pyStr f).data = sg ++ (a ++ '.' :: b) := by
  rcases renderCents_value (Int.fdiv (f.num * 10 ^ k) (f.den : ℤ)) k with
    ⟨A, B, hA, hB, _, hshape, _⟩
  have hps : (pyStr f).data = renderCents (Int.fdiv (f.num * 10 ^ k) (f.den : ℤ)) k := by
    unfold pyStr
    rw [h]
  refine ⟨_, A, B, ?_, hA, hB, by rw [hps, hshape]⟩
  split <;> simp

theorem pyStrip_pyStr {f : Frac} {k : ℕ} (h : decExp f = some k) :
    pyStrip (pyStr f) = pyStr f := by
  rcases pyStr_data_shape h with ⟨sg, a, b, hsg, ha, hb, hdata⟩
  have hns : ∀ c ∈ (pyStr f).data, isPySpace c = false := by
    rw [hdata]
    intro c hc
    rcases List.mem_append.mp hc with h1 | h1
    · rcases hsg with rfl | rfl
      · rcases List.mem_singleton.mp h1 with rfl; decide
      · simp at h1
    · rcases List.mem_append.mp h1 with h2 | h2
      · exact isPySpace_of_isDigitC (ha c h2)
      · rcases List.mem_cons.mp h2 with rfl | h2
        · decide
        · exact isPySpace_of_isDigitC (hb c h2)
  show (⟨stripL (pyStr f).data⟩ : String) = pyStr f
  rw [stripL_no_space hns]

theorem removeComma_pyStr {f : Frac} {k : ℕ} (h : decExp f = some k) :
    removeChar ',' (pyStr f) = pyStr f := by
  rcases pyStr_data_shape h with ⟨sg, a, b, hsg, ha, hb, hdata⟩
  have hnc : ∀ c ∈ (pyStr f).data, (decide ¬(c = ',')) = true := by
    rw [hdata]
    intro c hc
    simp only [decide_eq_true_eq]
    rcases List.mem_append.mp hc with h1 | h1
    · rcases hsg with rfl | rfl
      · rcases List.mem_singleton.mp h1 with rfl; decide
      · simp at h1
    · rcases List.mem_append.mp h1 with h2 | h2
      · intro he; subst he; exact absurd (ha _ h2) (by decide)
      · rcases List.mem_cons.mp h2 with rfl | h2
        · decide
        · intro he; subst he; exact absurd (hb _ h2) (by decide)
  show (⟨(pyStr f).data.filter (fun x => x ≠ ',')⟩ : String) = pyStr f
  rw [List.filter_eq_self.mpr hnc]

theorem intLit_pyStr {f : Frac} {k : ℕ} (h : decExp f = some k) :
    intLit (pyStr f) = false := by
  rcases pyStr_data_shape h with ⟨sg, a, b, hsg, ha, hb, hdata⟩
  unfold intLit
  rw [hdata]
  rcases hsg with rfl | rfl
  · have hdot : '.' ∈ a ++ '.' :: b := by simp
    simp [all_false_of_dot hdot]
  · cases a with
    | nil =>
      have hdot : '.' ∈ ('.' :: b) := by simp
      simp [all_false_of_dot hdot]
    | cons c t =>
      have hc : isDigitC c = true := ha c (by simp)
      have hc1 : ¬(c = '-') := by intro he; subst he; exact absurd hc (by decide)
      have hc2 : ¬(c = '+') := by intro he; subst he; exact absurd hc (by decide)
      have hdot : '.' ∈ (c :: t) ++ '.' :: b := by simp
      simp only [List.nil_append, List.cons_append]
      rw [show ((c :: (t ++ '.' :: b)).all isDigitC) = false from all_false_of_dot (by simp)]
      simp [hc1, hc2]

theorem decExp_roundTo2 (x : Frac) : ∃ k, decExp (roundTo 2 x) = some k := by
  have hmem : (2 : ℕ) ∈ List.range 21 := by decide
  have hp : (((roundTo 2 x).num * (10 : ℤ) ^ 2) % ((roundTo 2 x).den : ℤ) == 0) = true := by
    have hden : ((roundTo 2 x).den : ℤ) = 10 ^ 2 := by norm_num [roundTo]
    rw [hden]
    simp [Int.mul_emod_left]
  have hsome : (decExp (roundTo 2 x)).isSome = true := by
    unfold decExp
    exact List.find?_isSome.mpr ⟨2, hmem, hp⟩
  exact Option.isSome_iff_exists.mp hsome

theorem pyStr_val_inj {f1 f2 : Frac} {k1 k2 : ℕ} (h1 : decExp f1 = some k1)
    (h2 : decExp f2 = some k2) (he : pyStr f1 = pyStr f2) : f1.val = f2.val := by
  obtain ⟨g1, hp1, hv1⟩ := pyFloat_pyStr h1
  obtain ⟨g2, hp2, hv2⟩ := pyFloat_pyStr h2
  rw [he, hp2] at hp1
  have hg : g2 = g1 := Option.some_injective _ hp1
  rw [← hv1, ← hv2, hg]

theorem pyFloatL_digits_signed (sg : List Char) (hsg : sg = [] ∨ sg = ['-'] ∨ sg = ['+'])
    (A : List Char) (hA : ∀ c ∈ A, isDigitC c = true) (hne : A ≠ []) :
    ∃ g : Frac, pyFloatL (sg ++ A) = some g ∧
      g.num = (if sg = ['-'] then -(charsToNat A : ℤ) else (charsToNat A : ℤ)) ∧
      g.den = 1 := by
  have hnospace : ∀ c ∈ sg ++ A, isPySpace c = false := by
    intro c hc
    rcases List.mem_append.mp hc with h1 | h1
    · rcases hsg with rfl | rfl | rfl
      · simp at h1
      · rcases List.mem_singleton.mp h1 with rfl; decide
      · rcases List.mem_singleton.mp h1 with rfl; decide
    · exact isPySpace_of_isDigitC (hA c h1)
  have hstrip : stripL (sg ++ A) = sg ++ A := stripL_no_space hnospace
  obtain ⟨a, t, rfl⟩ : ∃ a t, A = a :: t := by
    cases A with
    | nil => exact absurd rfl hne
    | cons a t => exact ⟨a, t, rfl⟩
  have hda : isDigitC a = true := hA a (by simp)
  have ha1 : ¬(a = '-') := by intro he; subst he; exact absurd hda (by decide)
  have ha2 : ¬(a = '+') := by intro he; subst he; exact absurd hda (by decide)
  have hip : (a :: t).takeWhile isDigitC = a :: t := takeWhile_all_self hA
  have hrest1 : (a :: t).dropWhile isDigitC = [] := dropWhile_all_nil hA
  have hAemp : (a :: t).isEmpty = false := rfl
  have hsign : parseSign (sg ++ a :: t) =
      (if sg = ['-'] then true else false, a :: t) := by
    rcases hsg with rfl | rfl | rfl
    · simp [parseSign, ha1, ha2]
    · simp [parseSign]
    · simp [parseSign]
  rcases hsg with rfl | rfl | rfl
  · refine ⟨⟨(charsToNat (a :: t) : ℤ), 1, Nat.one_pos⟩, ?_, by simp, rfl⟩
    unfold pyFloatL
    rw [hstrip]
    simp only [hsign, hip, hrest1, hAemp, if_false, Bool.and_false, Bool.false_eq_true,
      reduceIte, List.length_nil, pow_zero]
    simp [charsToNat]
  · refine ⟨⟨-(charsToNat (a :: t) : ℤ), 1, Nat.one_pos⟩, ?_, by simp, rfl⟩
    unfold pyFloatL
    rw [hstrip]
    simp only [hsign, hip, hrest1, hAemp, if_false, Bool.and_false, Bool.false_eq_true,
      reduceIte, List.length_nil, pow_zero]
    simp [charsToNat]
  · refine ⟨⟨(charsToNat (a :: t) : ℤ), 1, Nat.one_pos⟩, ?_, by simp, rfl⟩
    unfold pyFloatL
    rw [hstrip]
    simp only [hsign, hip, hrest1, hAemp, if_false, Bool.and_false, Bool.false_eq_true,
      reduceIte, List.length_nil, pow_zero]
    simp [charsToNat]

theorem intLit_parse {s : String} (h : intLit s = true) :
    ∃ g : Frac, pyFloat s = some g ∧ g.num = intLitVal s ∧ g.den = 1 := by
  have hfl : pyFloat s = pyFloatL s.data := rfl
  unfold intLit at h
  unfold intLitVal
  cases hd : s.data with
  | nil => rw [hd] at h; simp at h
  | cons c t =>
    rw [hd] at h
    rw [hfl, hd]
    by_cases hc1 : c = '-'
    · subst hc1
      simp only [if_pos rfl] at h ⊢
      have ht : t ≠ [] := by
        intro he; subst he; simp at h
      have hdig : ∀ x ∈ t, isDigitC x = true := by
        intro x hx
        have := (Bool.and_eq_true _ _).mp h
        exact List.all_eq_true.mp this.2 x hx
      rcases pyFloatL_digits_signed ['-'] (by simp) t hdig ht with ⟨g, hg, hgn, hgd⟩
      refine ⟨g, by simpa using hg, ?_, hgd⟩
      simpa using hgn
    · by_cases hc2 : c = '+'
      · subst hc2
        simp only [if_neg (show ¬(('+' : Char) = '-') by decide), if_pos rfl] at h ⊢
        have ht : t ≠ [] := by
          intro he; subst he; simp at h
        have hdig : ∀ x ∈ t, isDigitC x = true := by
          intro x hx
          have := (Bool.and_eq_true _ _).mp h
          exact List.all_eq_true.mp this.2 x hx
        rcases pyFloatL_digits_signed ['+'] (by simp) t hdig ht with ⟨g, hg, hgn, hgd⟩
        refine ⟨g, by simpa using hg, ?_, hgd⟩
        simpa using hgn
      · simp only [if_neg hc1, if_neg hc2] at h ⊢
        have hdig : ∀ x ∈ (c :: t), isDigitC x = true := List.all_eq_true.mp h
        rcases pyFloatL_digits_signed [] (by simp) (c :: t) hdig (by simp) with ⟨g, hg, hgn, hgd⟩
        refine ⟨g, by simpa using hg, ?_, hgd⟩
        simpa using hgn

/-! ## Lemmas: Python string order and the stable sort; the row scan -/

theorem charToNat_inj {a b : Char} (h : a.toNat = b.toNat) : a = b := by
  have := congrArg Char.ofNat h
  rwa [Char.ofNat_toNat, Char.ofNat_toNat] at this

theorem leL_cons_iff (x y : Char) (t u : List Char) :
    leL (x :: t) (y :: u) = true ↔
      (x.toNat < y.toNat ∨ (x.toNat = y.toNat ∧ leL t u = true)) := by
  have hdef : leL (x :: t) (y :: u) =
      (if x.toNat < y.toNat then true else if y.toNat < x.toNat then false else leL t u) := rfl
  rw [hdef]
  by_cases h1 : x.toNat < y.toNat
  · simp [h1]
  · by_cases h2 : y.toNat < x.toNat
    · simp only [h1, h2, if_true, if_false, reduceIte]
      constructor
      · intro h; simp at h
      · intro h; exfalso
        rcases h with h | ⟨h, _⟩ <;> first
          | exact h
          | omega
    · have hxy : x.toNat = y.toNat := by omega
      simp [h1, h2, hxy]

theorem leL_total : ∀ a b : List Char, leL a b = true ∨ leL b a = true := by
  intro a
  induction a with
  | nil => intro b; left; rfl
  | cons x t ih =>
    intro b
    cases b with
    | nil => right; rfl
    | cons y u =>
      rw [leL_cons_iff, leL_cons_iff]
      by_cases h1 : x.toNat < y.toNat
      · left; left; exact h1
      · by_cases h2 : y.toNat < x.toNat
        · right; left; exact h2
        · rcases ih u with h | h
          · left; right; exact ⟨by omega, h⟩
          · right; right; exact ⟨by omega, h⟩

theorem leL_trans : ∀ a b c : List Char,
    leL a b = true → leL b c = true → leL a c = true := by
  intro a
  induction a with
  | nil => intro b c _ _; rfl
  | cons x t ih =>
    intro b c hab hbc
    cases b with
    | nil => exact absurd hab (by simp [leL])
    | cons y u =>
      cases c with
      | nil => exact absurd hbc (by simp [leL])
      | cons z v =>
        rw [leL_cons_iff] at hab hbc ⊢
        rcases hab with h1 | ⟨h1, h1r⟩ <;> rcases hbc with h2 | ⟨h2, h2r⟩
        · left; omega
        · left; omega
        · left; omega
        · right; exact ⟨by omega, ih u v h1r h2r⟩

theorem leL_antisymm : ∀ a b : List Char,
    leL a b = true → leL b a = true → a = b := by
  intro a
  induction a with
  | nil =>
    intro b _ hba
    cases b with
    | nil => rfl
    | cons y u => exact absurd hba (by simp [leL])
  | cons x t ih =>
    intro b hab hba
    cases b with
    | nil => exact absurd hab (by simp [leL])
    | cons y u =>
      rw [leL_cons_iff] at hab hba
      rcases hab with h1 | ⟨h1, h1r⟩ <;> rcases hba with h2 | ⟨h2, h2r⟩ <;>
        try omega
      have hx : x = y := charToNat_inj h1
      subst hx
      rw [ih u h1r h2r]

theorem sorted_perm_distinct_eq {α : Type} (key : α → List Char) :
    ∀ (l1 l2 : List α), l1.Perm l2 →
      l1.Pairwise (fun a b => leL (key a) (key b) = true) →
      l2.Pairwise (fun a b => leL (key a) (key b) = true) →
      (l1.map key).Pairwise (fun a b => a ≠ b) → l1 = l2 := by
  intro l1
  induction l1 with
  | nil =>
    intro l2 hp _ _ _
    exact (List.Perm.nil_eq hp)
  | cons x t ih =>
    intro l2 hp hs1 hs2 hd
    cases l2 with
    | nil => exact List.Perm.eq_nil hp
    | cons y t2 =>
      by_cases hxy : x = y
      · subst hxy
        have hrec := ih t2 hp.cons_inv hs1.of_cons hs2.of_cons
          (by simpa using (List.pairwise_cons.mp (by simpa using hd)).2)
        rw [hrec]
      · exfalso
        have hy : y ∈ t := by
          have h1 : y ∈ x :: t := (List.Perm.mem_iff hp).mpr (by simp)
          rcases List.mem_cons.mp h1 with h2 | h2
          · exact absurd h2.symm hxy
          · exact h2
        have hx : x ∈ t2 := by
          have h1 : x ∈ y :: t2 := (List.Perm.mem_iff hp).mp (by simp)
          rcases List.mem_cons.mp h1 with h2 | h2
          · exact absurd h2 hxy
          · exact h2
        have h1 : leL (key x) (key y) = true :=
          (List.pairwise_cons.mp hs1).1 y hy
        have h2 : leL (key y) (key x) = true :=
          (List.pairwise_cons.mp hs2).1 x hx
        have hkeq : key x = key y := leL_antisymm _ _ h1 h2
        have hkne : key x ≠ key y :=
          (List.pairwise_cons.mp (by simpa using hd)).1 (key y) (List.mem_map_of_mem key hy)
        exact hkne hkeq

theorem appendCont_codigo (p : RawItem) (r : Row) :
    (appendCont p r).codigo = p.codigo := by
  unfold appendCont
  cases contCell r <;> rfl

theorem isItemStartRow_codigo {r : Row} (h : isItemStartRow r = true) :
    strippedCell r 1 ≠ "" := by
  unfold isItemStartRow at h
  have h2 := (Bool.and_eq_true _ _).mp h
  intro he
  rw [he] at h2
  simp at h2

theorem scanStep_inv (r : Row) (cur : Option RawItem)
    (h : ∀ p, cur = some p → p.codigo ≠ "") :
    (∀ q ∈ (scanStep r cur).1, q.codigo ≠ "") ∧
      (∀ p, (scanStep r cur).2 = some p → p.codigo ≠ "") := by
  unfold scanStep
  by_cases hi : isItemStartRow r
  · simp only [hi, if_true, reduceIte]
    constructor
    · intro q hq
      exact h q (Option.mem_def.mp (Option.mem_toList.mp hq))
    · intro p hp
      have hpp : parseItemRow r = p := Option.some_injective _ hp
      rw [← hpp]
      exact isItemStartRow_codigo hi
  · simp only [hi, if_false, Bool.false_eq_true, reduceIte]
    cases cur with
    | none => simp
    | some p =>
      have hp := h p rfl
      by_cases hd : pyIsDigit (strippedCell r 0) = true
      · simp only [hd, Bool.not_true, if_false, Bool.false_eq_true, reduceIte]
        exact ⟨by simp, fun q hq => by rw [← Option.some_injective _ hq]; exact hp⟩
      · have hd2 : pyIsDigit (strippedCell r 0) = false := by
          revert hd; cases pyIsDigit (strippedCell r 0) <;> simp
        simp only [hd2, Bool.not_false, if_true, reduceIte]
        refine ⟨by simp, fun q hq => ?_⟩
        rw [← Option.some_injective _ hq, appendCont_codigo]
        exact hp

theorem scanRows_codigo : ∀ (rows : List Row) (cur : Option RawItem),
    (∀ p, cur = some p → p.codigo ≠ "") →
    ∀ q ∈ scanRows rows cur, q.codigo ≠ "" := by
  intro rows
  induction rows with
  | nil =>
    intro cur h q hq
    unfold scanRows at hq
    exact h q (Option.mem_def.mp (Option.mem_toList.mp hq))
  | cons r rest ih =>
    intro cur h q hq
    unfold scanRows at hq
    by_cases hr : rowAnyTruthy r = true
    · simp only [hr, Bool.not_true, Bool.false_eq_true, reduceIte] at hq
      obtain ⟨h1, h2⟩ := scanStep_inv r cur h
      by_cases ht : isTerminatorRow r = true
      · simp only [ht, if_true, reduceIte] at hq
        rcases List.mem_append.mp hq with hq | hq
        · exact h1 q hq
        · exact h2 q (Option.mem_def.mp (Option.mem_toList.mp hq))
      · simp only [ht, if_false, Bool.false_eq_true, reduceIte] at hq
        rcases List.mem_append.mp hq with hq | hq
        · exact h1 q hq
        · exact ih _ h2 q hq
    · have hr2 : rowAnyTruthy r = false := by
        revert hr; cases rowAnyTruthy r <;> simp
      simp only [hr2, Bool.not_false, if_true, reduceIte] at hq
      exact ih cur h q hq

theorem scanRows_stop (r : Row) (rest1 rest2 : List Row) (cur : Option RawItem)
    (ht : rowAnyTruthy r = true) (hterm : isTerminatorRow r = true) :
    scanRows (r :: rest1) cur = scanRows (r :: rest2) cur := by
  unfold scanRows
  simp [ht, hterm]

theorem scanRows_term_closes (r : Row) (rest : List Row) (cur : Option RawItem)
    (ht : rowAnyTruthy r = true) (hterm : isTerminatorRow r = true)
    (hni : isItemStartRow r = false) (hnc : contCell r = none) :
    scanRows (r :: rest) cur = cur.toList := by
  unfold scanRows
  simp only [ht, Bool.not_true, Bool.false_eq_true, reduceIte, hterm, if_true]
  unfold scanStep
  simp only [hni, Bool.false_eq_true, reduceIte]
  cases cur with
  | none => rfl
  | some p =>
    by_cases hd : pyIsDigit (strippedCell r 0) = true
    · simp [hd]
    · have hd2 : pyIsDigit (strippedCell r 0) = false := by
        revert hd; cases pyIsDigit (strippedCell r 0) <;> simp
      simp [hd2, appendCont, hnc]

theorem scanRows_term_appends (r : Row) (rest : List Row) (p : RawItem) (e : String)
    (ht : rowAnyTruthy r = true) (hterm : isTerminatorRow r = true)
    (hni : isItemStartRow r = false) (hnd : pyIsDigit (strippedCell r 0) = false)
    (hc : contCell r = some e) :
    scanRows (r :: rest) (some p) =
      [{ p with descripcion := p.descripcion ++ " " ++ e }] := by
  unfold scanRows
  simp only [ht, Bool.not_true, Bool.false_eq_true, reduceIte, hterm, if_true]
  unfold scanStep
  simp only [hni, Bool.false_eq_true, reduceIte, hnd, Bool.not_false, if_true]
  simp [appendCont, hc]

/-! ## Claim theorems: parser claims -/

theorem stringDataInj {a b : String} (h : a.data = b.data) : a = b :=
  congrArg String.mk h

theorem items_mem {g : Grid} {p : ProdRow}
    (hp : p ∈ (procesar_tabla_productos g).items) : ∃ x, p = mkProdRow x := by
  unfold procesar_tabla_productos at hp
  cases hah : afterHeader g with
  | none => rw [hah] at hp; simp at hp
  | some rest =>
    rw [hah] at hp
    by_cases he : (scanRows rest none).isEmpty = true
    · simp only [he, if_true, reduceIte] at hp
      simp at hp
    · have he2 : (scanRows rest none).isEmpty = false := by
        revert he; cases (scanRows rest none).isEmpty <;> simp
      simp only [he2, Bool.false_eq_true, if_false, reduceIte] at hp
      rcases List.mem_map.mp hp with ⟨x, _, hx⟩
      exact ⟨x, hx.symm⟩

theorem mkProdRow_montoDescuento (x : RawItem) :
    (mkProdRow x).montoDescuento.val =
      roundQ 3 ((mkProdRow x).importe.val * ((mkProdRow x).descuentoPct.val / 100)) := by
  show (roundTo decimales ((roundTo decimales x.importe).mul
      ((roundTo decimales x.descuentoPct).divNat 100 (by decide)))).val = _
  rw [roundTo_val, Frac.val_mul, Frac.val_divNat]
  norm_num
  rfl

theorem mkProdRow_montoImpuesto (x : RawItem) :
    (mkProdRow x).montoImpuesto.val =
      roundQ 3 ((mkProdRow x).importe.val * ((mkProdRow x).impuestoPct.val / 100)) := by
  show (roundTo decimales ((roundTo decimales x.importe).mul
      ((roundTo decimales x.impuestoPct).divNat 100 (by decide)))).val = _
  rw [roundTo_val, Frac.val_mul, Frac.val_divNat]
  norm_num
  rfl

theorem mkProdRow_totalPorProducto (x : RawItem) :
    (mkProdRow x).totalPorProducto.val =
      roundQ 3 ((mkProdRow x).importe.val + (mkProdRow x).montoImpuesto.val -
        (mkProdRow x).montoDescuento.val) := by
  show (roundTo decimales (((roundTo decimales x.importe).add _).sub _)).val = _
  rw [roundTo_val, Frac.val_sub, Frac.val_add]
  rfl

/-- C5: the printed-extended-amount policy scenario: the parser trusts
the printed extended amount 45.00 over `10 × 5.00` and derives
`Monto Descuento` 4.5, `Monto Impuesto` 0.0, `Total por Producto` 40.5. -/
theorem c5_printed_extended_policy :
    ((procesar_tabla_productos gC5).items.map (fun p =>
        (p.importe.val, p.montoDescuento.val, p.montoImpuesto.val, p.totalPorProducto.val))) =
      [(45, 9 / 2, 0, 81 / 2)] ∧
    (procesar_tabla_productos gC5).status = ExtractStatus.found := by
  constructor
  · rw [show (procesar_tabla_productos gC5).items =
        [⟨"SKU1", "Widget A", ⟨10000, 1000, by decide⟩, "UN", ⟨5000, 1000, by decide⟩,
          ⟨10000, 1000, by decide⟩, ⟨0, 1000, by decide⟩, ⟨45000, 1000, by decide⟩,
          ⟨4500, 1000, by decide⟩, ⟨0, 1000, by decide⟩, ⟨40500, 1000, by decide⟩⟩]
      from by decide]
    simp only [List.map_cons, List.map_nil, List.cons.injEq, and_true, Prod.mk.injEq]
    norm_num [Frac.val]
  · decide

/-- C9: a grid in which no row's first cell strips to the header token
`"Itm"` yields the empty item list with the no-header status. -/
theorem c9_no_header_recovery (g : Grid) (h : ∀ r ∈ g, isHeaderRow r = false) :
    procesar_tabla_productos g = ⟨[], ExtractStatus.noHeader⟩ := by
  have hah : afterHeader g = none := by
    induction g with
    | nil => rfl
    | cons r rest ih =>
      unfold afterHeader
      rw [h r (by simp)]
      exact ih (fun x hx => h x (by simp [hx]))
  unfold procesar_tabla_productos
  rw [hah]

/-- Witness for C9 at a concrete header-less grid. -/
theorem c9_witness : procesar_tabla_productos gC9 = ⟨[], ExtractStatus.noHeader⟩ :=
  c9_no_header_recovery gC9 (by decide)

/-- C4: every extracted item satisfies the derived-field identities
`Monto Descuento = round(Importe · Descuento%/100, 3)`,
`Monto Impuesto = round(Importe · Impuesto%/100, 3)` and
`Total por Producto = round(Importe + Monto Impuesto − Monto Descuento, 3)`,
exactly — hence within the claimed `1e-9` tolerance. -/
theorem c4_derived_field_identity (g : Grid) (p : ProdRow)
    (hp : p ∈ (procesar_tabla_productos g).items) :
    p.montoDescuento.val = roundQ 3 (p.importe.val * (p.descuentoPct.val / 100)) ∧
    p.montoImpuesto.val = roundQ 3 (p.importe.val * (p.impuestoPct.val / 100)) ∧
    p.totalPorProducto.val =
      roundQ 3 (p.importe.val + p.montoImpuesto.val - p.montoDescuento.val) ∧
    |p.totalPorProducto.val -
        roundQ 3 (p.importe.val + p.montoImpuesto.val - p.montoDescuento.val)| ≤
      1 / 1000000000 := by
  obtain ⟨x, rfl⟩ := items_mem hp
  refine ⟨mkProdRow_montoDescuento x, mkProdRow_montoImpuesto x,
    mkProdRow_totalPorProducto x, ?_⟩
  rw [← mkProdRow_totalPorProducto x]
  simp

/-- Witness for C4 at the policy-scenario grid's item. -/
theorem c4_witness :
    gC5item ∈ (procesar_tabla_productos gC5).items ∧
    (gC5item.montoDescuento.val = roundQ 3 (gC5item.importe.val * (gC5item.descuentoPct.val / 100)) ∧
     gC5item.montoImpuesto.val = roundQ 3 (gC5item.importe.val * (gC5item.impuestoPct.val / 100)) ∧
     gC5item.totalPorProducto.val =
       roundQ 3 (gC5item.importe.val + gC5item.montoImpuesto.val - gC5item.montoDescuento.val) ∧
     |gC5item.totalPorProducto.val -
         roundQ 3 (gC5item.importe.val + gC5item.montoImpuesto.val - gC5item.montoDescuento.val)| ≤
       1 / 1000000000) :=
  ⟨by decide, c4_derived_field_identity gC5 gC5item (by decide)⟩

/-- C10: the two duplicated fingerprint implementations agree on every
input, including `None` and the empty DataFrame. -/
theorem c10_duplicate_implementations_agree (df : Option (List DfRow)) :
    HashOc.calcular_hash_oc df = SheetsUploaderOc.calcular_hash_oc df := rfl

/-- C6 counterexample: the item of `gC6` has an empty description, yet
it appears in the returned sequence — the claimed drop rule does not
exist in the code. -/
theorem c6_counterexample :
    ((procesar_tabla_productos gC6).items.map (fun p => (p.codigo, p.descripcion))) =
      [("SKU1", "")] ∧
    (procesar_tabla_productos gC6).items.length = 1 := by
  constructor <;> decide

/-- C6 amended: finalized items are never dropped: every finalized item
has a non-empty product code by construction (an item-start row requires
one), and the returned DataFrame keeps exactly one row per finalized
item — items missing description or quantity are kept with defaults
`""` and `0.0`; the only row filter, `dropna` on `Total por Producto`,
removes nothing in the exact model. -/
theorem c6_amended (g : Grid) :
    (∀ p ∈ (procesar_tabla_productos g).items, p.codigo ≠ "") ∧
    (∀ rest, afterHeader g = some rest →
      (procesar_tabla_productos g).items.length = (scanRows rest none).length) := by
  constructor
  · intro p hp
    unfold procesar_tabla_productos at hp
    cases hah : afterHeader g with
    | none => rw [hah] at hp; simp at hp
    | some rest =>
      rw [hah] at hp
      by_cases he : (scanRows rest none).isEmpty = true
      · simp only [he, if_true, reduceIte] at hp
        simp at hp
      · have he2 : (scanRows rest none).isEmpty = false := by
          revert he; cases (scanRows rest none).isEmpty <;> simp
        simp only [he2, Bool.false_eq_true, if_false, reduceIte] at hp
        rcases List.mem_map.mp hp with ⟨x, hx, rfl⟩
        show x.codigo ≠ ""
        exact scanRows_codigo rest none (fun q hq => by cases hq) x hx
  · intro rest hah
    unfold procesar_tabla_productos
    rw [hah]
    by_cases he : (scanRows rest none).isEmpty = true
    · simp only [he, if_true, reduceIte]
      have : scanRows rest none = [] := List.isEmpty_iff.mp he
      rw [this]
      rfl
    · have he2 : (scanRows rest none).isEmpty = false := by
        revert he; cases (scanRows rest none).isEmpty <;> simp
      simp only [he2, Bool.false_eq_true, if_false, reduceIte]
      exact List.length_map _ _

/-- Witness for C6 at the missing-description grid. -/
theorem c6_witness :
    gC6item.codigo ≠ "" ∧
    (procesar_tabla_productos gC6).items.length = (scanRows (gC6.drop 1) none).length :=
  ⟨(c6_amended gC6).1 gC6item (by decide),
   (c6_amended gC6).2 (gC6.drop 1) (by decide)⟩

/-- C7 counterexample: on `gC7` the terminator row (first cell
`"TOTAL"`) also appends its description-column text `"Extra"` to the
open item before closing it, and the scan stops (the following item row
`SKU2` is never read) — so a terminator row is not classified
exclusively. -/
theorem c7_counterexample :
    ((procesar_tabla_productos gC7).items.map (fun p => (p.codigo, p.descripcion))) =
      [("SKU1", "Desc Extra")] := by
  decide

/-- C7 amended: the terminator check runs after the item/continuation
step on the same row: (1) a terminator row always stops the scan, with
result independent of the remaining rows; (2) a terminator row that is
not an item-start and has no appendable description text only closes
the open item unchanged; (3) a terminator row with appendable
description text while an item is open first appends that text with a
single space, then closes and stops. -/
theorem c7_amended :
    (∀ (r : Row) (rest1 rest2 : List Row) (cur : Option RawItem),
        rowAnyTruthy r = true → isTerminatorRow r = true →
        scanRows (r :: rest1) cur = scanRows (r :: rest2) cur) ∧
    (∀ (r : Row) (rest : List Row) (cur : Option RawItem),
        rowAnyTruthy r = true → isTerminatorRow r = true →
        isItemStartRow r = false → contCell r = none →
        scanRows (r :: rest) cur = cur.toList) ∧
    (∀ (r : Row) (rest : List Row) (p : RawItem) (e : String),
        rowAnyTruthy r = true → isTerminatorRow r = true →
        isItemStartRow r = false → pyIsDigit (strippedCell r 0) = false →
        contCell r = some e →
        scanRows (r :: rest) (some p) =
          [{ p with descripcion := p.descripcion ++ " " ++ e }]) :=
  ⟨fun r rest1 rest2 cur ht hterm => scanRows_stop r rest1 rest2 cur ht hterm,
   fun r rest cur ht hterm hni hnc => scanRows_term_closes r rest cur ht hterm hni hnc,
   fun r rest p e ht hterm hni hnd hc => scanRows_term_appends r rest p e ht hterm hni hnd hc⟩

/-- Witness for C7: all three amended facts at concrete rows. -/
theorem c7_witness :
    scanRows ([some "TOTAL"] :: [[some "9", some "Z"]]) none =
      scanRows ([some "TOTAL"] :: []) none ∧
    scanRows ([some "TOTAL"] :: []) (some ⟨"K", "D", Frac.zero, "UN", Frac.zero,
      Frac.zero, Frac.zero, Frac.zero⟩) = [⟨"K", "D", Frac.zero, "UN", Frac.zero,
      Frac.zero, Frac.zero, Frac.zero⟩] ∧
    scanRows ([some "TOTAL", none, some "Extra"] :: []) (some ⟨"K", "D", Frac.zero, "UN",
      Frac.zero, Frac.zero, Frac.zero, Frac.zero⟩) = [⟨"K", "D Extra", Frac.zero, "UN",
      Frac.zero, Frac.zero, Frac.zero, Frac.zero⟩] :=
  ⟨(c7_amended).1 [some "TOTAL"] [[some "9", some "Z"]] [] none (by decide) (by decide),
   (c7_amended).2.1 [some "TOTAL"] [] _ (by decide) (by decide) (by decide) (by decide),
   by
    have h := (c7_amended).2.2 [some "TOTAL", none, some "Extra"] []
      ⟨"K", "D", Frac.zero, "UN", Frac.zero, Frac.zero, Frac.zero, Frac.zero⟩ "Extra"
      (by decide) (by decide) (by decide) (by decide) (by decide)
    simpa using h⟩

/-- C2 counterexample: on the concrete page, the parser derives a
per-line `Monto Impuesto` of 4.5, but the assembled record carries 99.0
— the page-level tax broadcast of `extractor_oc.py` line 358 overwrites
the per-line column. -/
theorem c2_counterexample :
    ((procesar_pagina texC2 tabC2).map (fun r => cellNumDen r.montoImpuesto)) =
      [(9900, 100)] ∧
    ((procesar_tabla_productos tabC2).items.map
      (fun p => (p.montoImpuesto.num, p.montoImpuesto.den))) = [(4500, 1000)] ∧
    ((9900 : ℚ) / 100 ≠ (4500 : ℚ) / 1000) := by
  refine ⟨by decide, by decide, by norm_num⟩

/-- C2 amended: record assembly preserves every parsed item field and
the derived `Monto Descuento` and `Total por Producto`, but overwrites
`Monto Impuesto` with the page-level tax total from the text; the
page-level `Subtotal` and `Total` are added. -/
theorem c2_amended (texto : String) (tabla : Grid) (r : DfRow)
    (hr : r ∈ procesar_pagina texto tabla) :
    ∃ p ∈ (procesar_tabla_productos tabla).items,
      r.codigoProducto = Cell.s p.codigo ∧ r.descripcion = Cell.s p.descripcion ∧
      r.cantidad = Cell.q p.cantidad ∧ r.unidad = Cell.s p.unidad ∧
      r.precio = Cell.q p.precio ∧ r.descuentoPct = Cell.q p.descuentoPct ∧
      r.impuestoPct = Cell.q p.impuestoPct ∧ r.importe = Cell.q p.importe ∧
      r.montoDescuento = Cell.q p.montoDescuento ∧
      r.totalPorProducto = Cell.q p.totalPorProducto ∧
      r.montoImpuesto = Cell.q (_extraer_totales_del_texto texto).impuesto ∧
      r.subtotal = Cell.q (_extraer_totales_del_texto texto).subtotal ∧
      r.total = Cell.q (_extraer_totales_del_texto texto).total := by
  unfold procesar_pagina at hr
  by_cases ht : (texto == "") = true
  · rw [if_pos ht] at hr
    simp at hr
  · rw [if_neg ht] at hr
    by_cases he : (procesar_tabla_productos tabla).items.isEmpty = true
    · rw [if_pos he] at hr
      simp at hr
    · rw [if_neg he] at hr
      rcases List.mem_map.mp hr with ⟨p, hp, rfl⟩
      exact ⟨p, hp, rfl, rfl, rfl, rfl, rfl, rfl, rfl, rfl, rfl, rfl, rfl, rfl, rfl⟩

/-- Witness for C2 at the concrete page. -/
theorem c2_witness :
    ∃ p ∈ (procesar_tabla_productos tabC2).items,
      c2row.codigoProducto = Cell.s p.codigo ∧ c2row.descripcion = Cell.s p.descripcion ∧
      c2row.cantidad = Cell.q p.cantidad ∧ c2row.unidad = Cell.s p.unidad ∧
      c2row.precio = Cell.q p.precio ∧ c2row.descuentoPct = Cell.q p.descuentoPct ∧
      c2row.impuestoPct = Cell.q p.impuestoPct ∧ c2row.importe = Cell.q p.importe ∧
      c2row.montoDescuento = Cell.q p.montoDescuento ∧
      c2row.totalPorProducto = Cell.q p.totalPorProducto ∧
      c2row.montoImpuesto = Cell.q (_extraer_totales_del_texto texC2).impuesto ∧
      c2row.subtotal = Cell.q (_extraer_totales_del_texto texC2).subtotal ∧
      c2row.total = Cell.q (_extraer_totales_del_texto texC2).total :=
  c2_amended texC2 tabC2 c2row (by decide)

/-- C3 counterexample: two record sets that differ only in
`Monto Descuento` (10 vs 99, far beyond the 2-decimal tolerance)
receive the same digest — the fingerprint does not read that column. -/
theorem c3_counterexample :
    rowMd1.montoDescuento = Cell.q ⟨10, 1, Nat.one_pos⟩ ∧
    rowMd2.montoDescuento = Cell.q ⟨99, 1, Nat.one_pos⟩ ∧
    { rowMd1 with montoDescuento := rowMd2.montoDescuento } = rowMd2 ∧
    (1 / 100 : ℚ) < |(10 : ℚ) - 99| ∧
    HashOc.calcular_hash_oc (some [rowMd1]) = HashOc.calcular_hash_oc (some [rowMd2]) := by
  refine ⟨rfl, rfl, by decide, by norm_num, by decide⟩

theorem metaStrOf_cons (r : DfRow) (t : List DfRow) :
    metaStrOf (r :: t) = metaTextStr r.numeroOrden ++ "|" ++ metaTextStr r.fecha ++ "|" ++
      metaTextStr r.proveedor ++ "|" ++ metaTotalStr r.total := rfl

theorem calcular_cons_eq (rows : List DfRow) (hne : rows.isEmpty = false) :
    HashOc.calcular_hash_oc (some rows) = md5Hex12 (hashContenido rows) := by
  show (if rows.isEmpty = true then "000000000000"
    else if colsDisponibles.isEmpty = true then md5Hex12 (metaStrOf rows)
    else md5Hex12 (hashContenido rows)) = md5Hex12 (hashContenido rows)
  rw [hne, show colsDisponibles.isEmpty = false from rfl]
  simp only [Bool.false_eq_true, reduceIte]

theorem hash_used_fields_congr (pre post : List DfRow) (r1 r2 : DfRow)
    (hu : usedFieldsEq r1 r2) :
    HashOc.calcular_hash_oc (some (pre ++ r1 :: post)) =
      HashOc.calcular_hash_oc (some (pre ++ r2 :: post)) := by
  obtain ⟨h1, h2, h3, h4, h5, h6, h7, h8, h9, h10⟩ := hu
  have hne1 : (pre ++ r1 :: post).isEmpty = false := by cases pre <;> rfl
  have hne2 : (pre ++ r2 :: post).isEmpty = false := by cases pre <;> rfl
  have hmeta : metaStrOf (pre ++ r1 :: post) = metaStrOf (pre ++ r2 :: post) := by
    cases pre with
    | nil =>
      simp only [List.nil_append, metaStrOf_cons]
      rw [h1, h2, h3, h4]
    | cons q t => rfl
  have htrans : hashTransRows (pre ++ r1 :: post) = hashTransRows (pre ++ r2 :: post) := by
    unfold hashTransRows colIsIntOf
    have hc : cellBaseStr r1.cantidad = cellBaseStr r2.cantidad := by rw [h7]
    have hpr : cellBaseStr r1.precio = cellBaseStr r2.precio := by rw [h9]
    have him : cellBaseStr r1.importe = cellBaseStr r2.importe := by rw [h10]
    have htr : ∀ fc fp fi : Bool, transRow fc fp fi r1 = transRow fc fp fi r2 := by
      intro fc fp fi
      unfold transRow
      rw [h5, h6, h7, h8, h9, h10]
    simp only [List.map_append, List.map_cons, hc, hpr, him, htr]
  rw [calcular_cons_eq _ hne1, calcular_cons_eq _ hne2]
  unfold hashContenido
  rw [hmeta, htrans]

theorem hash_cantidad_sensitive (r : DfRow) (x y : Frac)
    (hx : decExp x ≠ none) (hy : decExp y ≠ none)
    (hgap : 1 / 100 < |x.val - y.val|) :
    hashContenido [{ r with cantidad := Cell.q x }] ≠
      hashContenido [{ r with cantidad := Cell.q y }] := by
  obtain ⟨kx, hkx⟩ := Option.ne_none_iff_exists'.mp hx
  obtain ⟨ky, hky⟩ := Option.ne_none_iff_exists'.mp hy
  obtain ⟨gx, hpx, hvx⟩ := pyFloat_pyStr hkx
  obtain ⟨gy, hpy, hvy⟩ := pyFloat_pyStr hky
  have hcleanx : removeChar ',' (cellBaseStr (Cell.q x)) = pyStr x := by
    show removeChar ',' (pyStrip (pyStr x)) = pyStr x
    rw [pyStrip_pyStr hkx, removeComma_pyStr hkx]
  have hcleany : removeChar ',' (cellBaseStr (Cell.q y)) = pyStr y := by
    show removeChar ',' (pyStrip (pyStr y)) = pyStr y
    rw [pyStrip_pyStr hky, removeComma_pyStr hky]
  have hfcx : colIsIntOf [{ r with cantidad := Cell.q x }] (fun q => q.cantidad) = false := by
    unfold colIsIntOf
    simp only [List.map_cons, List.map_nil, List.all_cons, List.all_nil, Bool.and_true]
    rw [hcleanx]
    exact intLit_pyStr hkx
  have hfcy : colIsIntOf [{ r with cantidad := Cell.q y }] (fun q => q.cantidad) = false := by
    unfold colIsIntOf
    simp only [List.map_cons, List.map_nil, List.all_cons, List.all_nil, Bool.and_true]
    rw [hcleany]
    exact intLit_pyStr hky
  intro he
  have hcont : ∀ (row : DfRow), hashContenido [row] =
      metaStrOf [row] ++ "\n" ++ transLine (transRow
        (colIsIntOf [row] (fun q => q.cantidad)) (colIsIntOf [row] (fun q => q.precio))
        (colIsIntOf [row] (fun q => q.importe)) row) := fun row => rfl
  rw [hcont, hcont] at he
  have htx : transRow (colIsIntOf [{ r with cantidad := Cell.q x }] (fun q => q.cantidad))
      (colIsIntOf [{ r with cantidad := Cell.q x }] (fun q => q.precio))
      (colIsIntOf [{ r with cantidad := Cell.q x }] (fun q => q.importe))
      { r with cantidad := Cell.q x } =
      { cantidad := pyStr (roundTo 2 gx),
        codigo := cellBaseStr r.codigoProducto,
        descripcion := cellBaseStr r.descripcion,
        importe := numCellStr (colIsIntOf [{ r with cantidad := Cell.q y }] (fun q => q.importe))
          (removeChar ',' (cellBaseStr r.importe)),
        precio := numCellStr (colIsIntOf [{ r with cantidad := Cell.q y }] (fun q => q.precio))
          (removeChar ',' (cellBaseStr r.precio)),
        unidad := cellBaseStr r.unidad } := by
    rw [hfcx]
    unfold transRow
    have hcant : numCellStr false (removeChar ','
        (cellBaseStr ({ r with cantidad := Cell.q x } : DfRow).cantidad)) =
        pyStr (roundTo 2 gx) := by
      rw [show ({ r with cantidad := Cell.q x } : DfRow).cantidad = Cell.q x from rfl, hcleanx]
      unfold numCellStr
      rw [removeComma_pyStr hkx, hpx]
      rfl
    rw [hcant]
    rfl
  have hty : transRow (colIsIntOf [{ r with cantidad := Cell.q y }] (fun q => q.cantidad))
      (colIsIntOf [{ r with cantidad := Cell.q y }] (fun q => q.precio))
      (colIsIntOf [{ r with cantidad := Cell.q y }] (fun q => q.importe))
      { r with cantidad := Cell.q y } =
      { cantidad := pyStr (roundTo 2 gy),
        codigo := cellBaseStr r.codigoProducto,
        descripcion := cellBaseStr r.descripcion,
        importe := numCellStr (colIsIntOf [{ r with cantidad := Cell.q y }] (fun q => q.importe))
          (removeChar ',' (cellBaseStr r.importe)),
        precio := numCellStr (colIsIntOf [{ r with cantidad := Cell.q y }] (fun q => q.precio))
          (removeChar ',' (cellBaseStr r.precio)),
        unidad := cellBaseStr r.unidad } := by
    rw [hfcy]
    unfold transRow
    have hcant : numCellStr false (removeChar ','
        (cellBaseStr ({ r with cantidad := Cell.q y } : DfRow).cantidad)) =
        pyStr (roundTo 2 gy) := by
      rw [show ({ r with cantidad := Cell.q y } : DfRow).cantidad = Cell.q y from rfl, hcleany]
      unfold numCellStr
      rw [removeComma_pyStr hky, hpy]
      rfl
    rw [hcant]
  rw [htx, hty] at he
  have hmeta : metaStrOf [({ r with cantidad := Cell.q x } : DfRow)] =
      metaStrOf [({ r with cantidad := Cell.q y } : DfRow)] := rfl
  rw [hmeta] at he
  unfold transLine at he
  have hdata := congrArg String.data he
  simp only [String.data_append, List.append_assoc] at hdata
  have h1 := List.append_cancel_left hdata
  have h2 := List.append_cancel_left h1
  have hcda := List.append_cancel_right h2
  have hstr : pyStr (roundTo 2 gx) = pyStr (roundTo 2 gy) := stringDataInj hcda
  obtain ⟨k2x, hk2x⟩ := decExp_roundTo2 gx
  obtain ⟨k2y, hk2y⟩ := decExp_roundTo2 gy
  have hveq := pyStr_val_inj hk2x hk2y hstr
  rw [roundTo_val, roundTo_val, hvx, hvy] at hveq
  exact roundQ2_ne hgap hveq

/-- C3. Amended: the digest is insensitive to every field outside the
hashed set (metadata Numero Orden / Fecha / Proveedor / Total and the six
item columns), and, at the fingerprint-content level, sensitive to a
change of more than the 2-decimal rounding tolerance in a hashed numeric
column such as Cantidad. -/
theorem c3_amended :
    (∀ (pre post : List DfRow) (r1 r2 : DfRow), usedFieldsEq r1 r2 →
        HashOc.calcular_hash_oc (some (pre ++ r1 :: post)) =
          HashOc.calcular_hash_oc (some (pre ++ r2 :: post))) ∧
    (∀ (r : DfRow) (x y : Frac), decExp x ≠ none → decExp y ≠ none →
        1 / 100 < |x.val - y.val| →
        hashContenido [{ r with cantidad := Cell.q x }] ≠
          hashContenido [{ r with cantidad := Cell.q y }]) := by
  constructor
  · intro pre post r1 r2 hu
    exact hash_used_fields_congr pre post r1 r2 hu
  · intro r x y hx hy hgap
    exact hash_cantidad_sensitive r x y hx hy hgap

theorem c3_amended_witness :
    (usedFieldsEq naRow { naRow with subtotal := Cell.s "x" } ∧
      HashOc.calcular_hash_oc (some [naRow]) =
        HashOc.calcular_hash_oc (some [{ naRow with subtotal := Cell.s "x" }])) ∧
    (decExp (⟨7, 2, Nat.succ_pos 1⟩ : Frac) ≠ none ∧
      decExp (⟨1, 2, Nat.succ_pos 1⟩ : Frac) ≠ none ∧
      1 / 100 < |(⟨7, 2, Nat.succ_pos 1⟩ : Frac).val - (⟨1, 2, Nat.succ_pos 1⟩ : Frac).val| ∧
      hashContenido [{ naRow with cantidad := Cell.q ⟨7, 2, Nat.succ_pos 1⟩ }] ≠
        hashContenido [{ naRow with cantidad := Cell.q ⟨1, 2, Nat.succ_pos 1⟩ }]) := by
  have hu : usedFieldsEq naRow { naRow with subtotal := Cell.s "x" } :=
    ⟨rfl, rfl, rfl, rfl, rfl, rfl, rfl, rfl, rfl, rfl⟩
  have hx : decExp (⟨7, 2, Nat.succ_pos 1⟩ : Frac) ≠ none := by decide
  have hy : decExp (⟨1, 2, Nat.succ_pos 1⟩ : Frac) ≠ none := by decide
  have hgap : (1 / 100 : ℚ) <
      |(⟨7, 2, Nat.succ_pos 1⟩ : Frac).val - (⟨1, 2, Nat.succ_pos 1⟩ : Frac).val| := by
    have hv : (⟨7, 2, Nat.succ_pos 1⟩ : Frac).val - (⟨1, 2, Nat.succ_pos 1⟩ : Frac).val = 3 := by
      show ((7 : ℤ) : ℚ) / ((2 : ℕ) : ℚ) - ((1 : ℤ) : ℚ) / ((2 : ℕ) : ℚ) = 3
      norm_num
    rw [hv]
    rw [show |(3 : ℚ)| = 3 from abs_of_nonneg (by norm_num)]
    norm_num
  exact ⟨⟨hu, c3_amended.1 [] [] naRow { naRow with subtotal := Cell.s "x" } hu⟩,
    hx, hy, hgap, c3_amended.2 naRow ⟨7, 2, Nat.succ_pos 1⟩ ⟨1, 2, Nat.succ_pos 1⟩ hx hy hgap⟩

theorem perm_all_eq {α : Type} (f : α → Bool) {a b : List α} (h : a.Perm b) :
    a.all f = b.all f := by
  by_cases hall : ∀ x ∈ a, f x = true
  · rw [List.all_eq_true.mpr hall,
      List.all_eq_true.mpr (fun x hx => hall x (h.mem_iff.mpr hx))]
  · have ha : a.all f = false := by
      rw [← Bool.not_eq_true]
      exact fun hc => hall (List.all_eq_true.mp hc)
    have hb : b.all f = false := by
      rw [← Bool.not_eq_true]
      exact fun hc => hall (fun x hx => List.all_eq_true.mp hc x (h.mem_iff.mp hx))
    rw [ha, hb]

theorem removeChar_idem (c : Char) (s : String) :
    removeChar c (removeChar c s) = removeChar c s := by
  show (⟨((s.data.filter _).filter _ : List Char)⟩ : String) = ⟨s.data.filter _⟩
  rw [List.filter_filter]
  simp

theorem pyFloatL_digits_core {t : List Char} (hne : t.isEmpty = false)
    (hall : ∀ x ∈ t, isDigitC x = true) (neg : Bool) (pre : List Char)
    (hpre : parseSign (pre ++ t) = (neg, t))
    (hns : ∀ x ∈ pre ++ t, isPySpace x = false) :
    pyFloatL (pre ++ t) = some ⟨if neg then -(charsToNat t : ℤ) else (charsToNat t : ℤ),
      1, Nat.one_pos⟩ := by
  unfold pyFloatL
  rw [stripL_no_space hns]
  have htake : t.takeWhile isDigitC = t := List.takeWhile_eq_self_iff.mpr (by simpa using hall)
  have hdrop : t.dropWhile isDigitC = [] := List.dropWhile_eq_nil_iff.mpr (by simpa using hall)
  simp only [hpre, htake, hdrop, hne, List.isEmpty_nil, Bool.and_true, Bool.false_eq_true,
    Bool.and_false, reduceIte, List.length_nil, pow_zero, charsToNat, List.foldl_nil,
    Nat.mul_one, Nat.add_zero]

theorem intLit_pyFloat {s : String} (h : intLit s = true) :
    pyFloat s = some ⟨intLitVal s, 1, Nat.one_pos⟩ := by
  unfold pyFloat
  unfold intLit at h
  unfold intLitVal
  cases hd : s.data with
  | nil => exact absurd h (by simp [hd])
  | cons c t =>
    rw [hd] at h
    have h2 : (if c = '-' then !t.isEmpty && t.all isDigitC
        else if c = '+' then !t.isEmpty && t.all isDigitC
        else (c :: t).all isDigitC) = true := h
    show pyFloatL (c :: t) = some ⟨if c = '-' then -(charsToNat t : ℤ)
      else if c = '+' then (charsToNat t : ℤ) else (charsToNat (c :: t) : ℤ), 1, Nat.one_pos⟩
    by_cases hm : c = '-'
    · subst hm
      rw [if_pos rfl] at h2 ⊢
      have hne : t.isEmpty = false := by
        rcases (Bool.and_eq_true _ _).mp h2 with ⟨h1, _⟩
        simpa using h1
      have hall : ∀ x ∈ t, isDigitC x = true := by
        rcases (Bool.and_eq_true _ _).mp h2 with ⟨_, h3⟩
        exact fun x hx => List.all_eq_true.mp h3 x hx
      have hns : ∀ x ∈ ['-'] ++ t, isPySpace x = false := by
        intro x hx
        rcases List.mem_append.mp hx with h1 | h1
        · rcases List.mem_singleton.mp h1 with rfl; decide
        · exact isPySpace_of_isDigitC (hall x h1)
      have hcore := pyFloatL_digits_core hne hall true ['-'] rfl hns
      rw [show ('-' :: t) = ['-'] ++ t from rfl, hcore]
      rfl
    · by_cases hp : c = '+'
      · subst hp
        rw [if_neg (by decide), if_pos rfl] at h2 ⊢
        have hne : t.isEmpty = false := by
          rcases (Bool.and_eq_true _ _).mp h2 with ⟨h1, _⟩
          simpa using h1
        have hall : ∀ x ∈ t, isDigitC x = true := by
          rcases (Bool.and_eq_true _ _).mp h2 with ⟨_, h3⟩
          exact fun x hx => List.all_eq_true.mp h3 x hx
        have hns : ∀ x ∈ ['+'] ++ t, isPySpace x = false := by
          intro x hx
          rcases List.mem_append.mp hx with h1 | h1
          · rcases List.mem_singleton.mp h1 with rfl; decide
          · exact isPySpace_of_isDigitC (hall x h1)
        have hcore := pyFloatL_digits_core hne hall false ['+'] rfl hns
        rw [show ('+' :: t) = ['+'] ++ t from rfl, hcore]
        rfl
      · rw [if_neg hm, if_neg hp] at h2 ⊢
        have hall : ∀ x ∈ c :: t, isDigitC x = true :=
          fun x hx => List.all_eq_true.mp h2 x hx
        have hne : (c :: t).isEmpty = false := rfl
        have hns : ∀ x ∈ ([] : List Char) ++ c :: t, isPySpace x = false := by
          intro x hx
          exact isPySpace_of_isDigitC (hall x (by simpa using hx))
        have hsign : parseSign ([] ++ c :: t) = (false, c :: t) := by
          show (if c = '-' then (true, t) else if c = '+' then (false, t)
            else (false, c :: t)) = (false, c :: t)
          rw [if_neg hm, if_neg hp]
        have hcore := pyFloatL_digits_core hne hall false [] hsign hns
        rw [show (c :: t) = [] ++ c :: t from rfl, hcore]
        rfl

theorem intFrac_val_inj {a b : ℤ}
    (h : (⟨a, 1, Nat.one_pos⟩ : Frac).val = (⟨b, 1, Nat.one_pos⟩ : Frac).val) : a = b := by
  have hq : ((a : ℤ) : ℚ) = ((b : ℤ) : ℚ) := by
    have h2 : ((a : ℤ) : ℚ) / (((1 : ℕ) : ℚ)) = ((b : ℤ) : ℚ) / (((1 : ℕ) : ℚ)) := h
    simpa using h2
  exact_mod_cast hq

theorem numCellStr_equiv {b : Bool} {s1 s2 : String}
    (hil : intLit s1 = intLit s2)
    (hv : (pyFloat s1).map Frac.val = (pyFloat s2).map Frac.val)
    (hb : b = true → intLit s1 = true)
    (hs1 : removeChar ',' s1 = s1) (hs2 : removeChar ',' s2 = s2) :
    numCellStr b s1 = numCellStr b s2 := by
  cases b with
  | true =>
    have h1 : intLit s1 = true := hb rfl
    have h2 : intLit s2 = true := hil ▸ h1
    rw [intLit_pyFloat h1, intLit_pyFloat h2] at hv
    simp only [Option.map_some', Option.some.injEq] at hv
    have hvv : intLitVal s1 = intLitVal s2 := intFrac_val_inj hv
    unfold numCellStr
    rw [if_pos rfl, if_pos rfl, hvv]
  | false =>
    unfold numCellStr
    rw [if_neg (by decide), if_neg (by decide), hs1, hs2]
    cases hf1 : pyFloat s1 with
    | none =>
      cases hf2 : pyFloat s2 with
      | none => rfl
      | some g2 => rw [hf1, hf2] at hv; simp at hv
    | some g1 =>
      cases hf2 : pyFloat s2 with
      | none => rw [hf1, hf2] at hv; simp at hv
      | some g2 =>
        rw [hf1, hf2] at hv
        simp only [Option.map_some', Option.some.injEq] at hv
        simp only [Option.getD_some]
        rw [roundTo_congr 2 hv]

theorem transRow_equiv (fc fp fi : Bool) (r1 r2 : DfRow) (he : recEquiv r1 r2)
    (hfc : fc = true → intLit (removeChar ',' (cellBaseStr r1.cantidad)) = true)
    (hfp : fp = true → intLit (removeChar ',' (cellBaseStr r1.precio)) = true)
    (hfi : fi = true → intLit (removeChar ',' (cellBaseStr r1.importe)) = true) :
    transRow fc fp fi r1 = transRow fc fp fi r2 := by
  obtain ⟨hc, hp, hi, hcod, hdes, huni, _, _, _, _⟩ := he
  have h1 : numCellStr fc (removeChar ',' (cellBaseStr r1.cantidad)) =
      numCellStr fc (removeChar ',' (cellBaseStr r2.cantidad)) :=
    numCellStr_equiv hc.1 hc.2 hfc (removeChar_idem _ _) (removeChar_idem _ _)
  have h2 : numCellStr fp (removeChar ',' (cellBaseStr r1.precio)) =
      numCellStr fp (removeChar ',' (cellBaseStr r2.precio)) :=
    numCellStr_equiv hp.1 hp.2 hfp (removeChar_idem _ _) (removeChar_idem _ _)
  have h3 : numCellStr fi (removeChar ',' (cellBaseStr r1.importe)) =
      numCellStr fi (removeChar ',' (cellBaseStr r2.importe)) :=
    numCellStr_equiv hi.1 hi.2 hfi (removeChar_idem _ _) (removeChar_idem _ _)
  unfold transRow
  rw [h1, h2, h3, hcod, hdes, huni]

theorem colIsIntOf_congr (proj : DfRow → Cell)
    (hsel : ∀ a b, recEquiv a b →
      intLit (removeChar ',' (cellBaseStr (proj a))) =
        intLit (removeChar ',' (cellBaseStr (proj b)))) :
    ∀ {l1 l2 : List DfRow}, List.Forall₂ recEquiv l1 l2 →
      colIsIntOf l1 proj = colIsIntOf l2 proj := by
  intro l1 l2 h
  induction h with
  | nil => rfl
  | cons hab htail ih =>
    unfold colIsIntOf at ih ⊢
    simp only [List.map_cons, List.all_cons]
    rw [hsel _ _ hab, ih]

theorem colIsIntOf_all {l : List DfRow} {proj : DfRow → Cell}
    (h : colIsIntOf l proj = true) :
    ∀ r ∈ l, intLit (removeChar ',' (cellBaseStr (proj r))) = true := by
  intro r hr
  unfold colIsIntOf at h
  exact List.all_eq_true.mp h _ (List.mem_map_of_mem _ hr)

theorem map_transRow_equiv (fc fp fi : Bool) :
    ∀ {l1 l2 : List DfRow}, List.Forall₂ recEquiv l1 l2 →
      (fc = true → ∀ r ∈ l1, intLit (removeChar ',' (cellBaseStr r.cantidad)) = true) →
      (fp = true → ∀ r ∈ l1, intLit (removeChar ',' (cellBaseStr r.precio)) = true) →
      (fi = true → ∀ r ∈ l1, intLit (removeChar ',' (cellBaseStr r.importe)) = true) →
      l1.map (transRow fc fp fi) = l2.map (transRow fc fp fi) := by
  intro l1 l2 h
  induction h with
  | nil => intro _ _ _; rfl
  | cons hab htail ih =>
    intro h1 h2 h3
    simp only [List.map_cons]
    rw [transRow_equiv fc fp fi _ _ hab
        (fun hb => h1 hb _ (List.mem_cons_self _ _))
        (fun hb => h2 hb _ (List.mem_cons_self _ _))
        (fun hb => h3 hb _ (List.mem_cons_self _ _)),
      ih (fun hb r hr => h1 hb r (List.mem_cons_of_mem _ hr))
        (fun hb r hr => h2 hb r (List.mem_cons_of_mem _ hr))
        (fun hb r hr => h3 hb r (List.mem_cons_of_mem _ hr))]

theorem hashTransRows_equiv {l1 l2 : List DfRow} (h : List.Forall₂ recEquiv l1 l2) :
    hashTransRows l1 = hashTransRows l2 := by
  have hfc := colIsIntOf_congr (fun r => r.cantidad) (fun a b he => he.1.1) h
  have hfp := colIsIntOf_congr (fun r => r.precio) (fun a b he => he.2.1.1) h
  have hfi := colIsIntOf_congr (fun r => r.importe) (fun a b he => he.2.2.1.1) h
  show l1.map (transRow (colIsIntOf l1 (fun r => r.cantidad))
      (colIsIntOf l1 (fun r => r.precio)) (colIsIntOf l1 (fun r => r.importe))) =
    l2.map (transRow (colIsIntOf l2 (fun r => r.cantidad))
      (colIsIntOf l2 (fun r => r.precio)) (colIsIntOf l2 (fun r => r.importe)))
  rw [← hfc, ← hfp, ← hfi]
  exact map_transRow_equiv _ _ _ h
    (fun hb => colIsIntOf_all hb) (fun hb => colIsIntOf_all hb) (fun hb => colIsIntOf_all hb)

theorem metaStrOf_equiv {l1 l2 : List DfRow} (h : List.Forall₂ recEquiv l1 l2) :
    metaStrOf l1 = metaStrOf l2 := by
  cases h with
  | nil => rfl
  | cons hab htail =>
    obtain ⟨_, _, _, _, _, _, hno, hfe, hpr, hto⟩ := hab
    rw [metaStrOf_cons, metaStrOf_cons, hno, hfe, hpr, hto]

/-- C8. Amended: formatting invariance holds for the columns the
fingerprint reads — records equal up to numeric formatting and text
whitespace in those columns, with the same pandas dtype shape
(integer-literal or not) in each numeric column, hash alike; but
`"100"` vs `"100.00"` flips the inferred column dtype and changes the
digest (see the counterexample). -/
theorem c8_amended (rows1 rows2 : List DfRow) (h : List.Forall₂ recEquiv rows1 rows2) :
    HashOc.calcular_hash_oc (some rows1) = HashOc.calcular_hash_oc (some rows2) := by
  cases h with
  | nil => rfl
  | cons hab htail =>
    rename_i a b t1 t2
    rw [calcular_cons_eq (a :: t1) rfl, calcular_cons_eq (b :: t2) rfl]
    unfold hashContenido
    rw [metaStrOf_equiv (List.Forall₂.cons hab htail),
      hashTransRows_equiv (List.Forall₂.cons hab htail)]

/-- C8. Counterexample: quantity `"100"` versus `"100.00"` — the spec's
own example of a formatting-only difference — parses to the same value,
yet the two single-row sets hash differently, because the integer
literal makes the column `int64` (rendered `100`) while `100.00` makes
it `float64` (rendered `100.0`). -/
theorem c8_counterexample :
    rowQint.cantidad = Cell.s "100" ∧ rowQflo.cantidad = Cell.s "100.00" ∧
    { rowQint with cantidad := rowQflo.cantidad } = rowQflo ∧
    (pyFloat (removeChar ',' (cellBaseStr rowQint.cantidad))).map Frac.val =
      (pyFloat (removeChar ',' (cellBaseStr rowQflo.cantidad))).map Frac.val ∧
    HashOc.calcular_hash_oc (some [rowQint]) ≠ HashOc.calcular_hash_oc (some [rowQflo]) := by
  refine ⟨rfl, rfl, by decide, ?_, by decide⟩
  have h1 : pyFloat (removeChar ',' (cellBaseStr rowQint.cantidad)) =
      some ⟨100, 1, Nat.one_pos⟩ := by decide
  have h2 : pyFloat (removeChar ',' (cellBaseStr rowQflo.cantidad)) =
      some ⟨10000, 100, by decide⟩ := by decide
  rw [h1, h2]
  simp only [Option.map_some', Option.some.injEq]
  show ((100 : ℤ) : ℚ) / ((1 : ℕ) : ℚ) = ((10000 : ℤ) : ℚ) / ((100 : ℕ) : ℚ)
  norm_num

theorem c8_witness :
    List.Forall₂ recEquiv [rowFmt1] [rowFmt2] ∧
    HashOc.calcular_hash_oc (some [rowFmt1]) = HashOc.calcular_hash_oc (some [rowFmt2]) := by
  have hcant : numCellEquiv rowFmt1.cantidad rowFmt2.cantidad := by
    constructor
    · decide
    · have h1 : pyFloat (removeChar ',' (cellBaseStr rowFmt1.cantidad)) =
          some ⟨100050, 100, by decide⟩ := by decide
      have h2 : pyFloat (removeChar ',' (cellBaseStr rowFmt2.cantidad)) =
          some ⟨10005, 10, by decide⟩ := by decide
      rw [h1, h2]
      simp only [Option.map_some', Option.some.injEq]
      show ((100050 : ℤ) : ℚ) / ((100 : ℕ) : ℚ) = ((10005 : ℤ) : ℚ) / ((10 : ℕ) : ℚ)
      norm_num
  have hprec : numCellEquiv rowFmt1.precio rowFmt2.precio := by
    constructor
    · decide
    · have h1 : pyFloat (removeChar ',' (cellBaseStr rowFmt1.precio)) =
          some ⟨25, 10, by decide⟩ := by decide
      have h2 : pyFloat (removeChar ',' (cellBaseStr rowFmt2.precio)) =
          some ⟨250, 100, by decide⟩ := by decide
      rw [h1, h2]
      simp only [Option.map_some', Option.some.injEq]
      show ((25 : ℤ) : ℚ) / ((10 : ℕ) : ℚ) = ((250 : ℤ) : ℚ) / ((100 : ℕ) : ℚ)
      norm_num
  have he : recEquiv rowFmt1 rowFmt2 :=
    ⟨hcant, hprec, ⟨rfl, rfl⟩, show cellBaseStr _ = cellBaseStr _ by decide,
      show cellBaseStr _ = cellBaseStr _ by decide,
      show cellBaseStr _ = cellBaseStr _ by decide, by decide, rfl,
      by decide, by decide⟩
  have hf : List.Forall₂ recEquiv [rowFmt1] [rowFmt2] :=
    List.Forall₂.cons he List.Forall₂.nil
  exact ⟨hf, c8_amended [rowFmt1] [rowFmt2] hf⟩

/-- C1. Counterexample: swapping two records that share the product
code `"A"` (differing descriptions) is a permutation, yet the digest
changes — `sort_values` is stable, so tied rows keep their input
order. -/
theorem c1_counterexample :
    List.Perm [rowAx, rowAy] [rowAy, rowAx] ∧
    HashOc.calcular_hash_oc (some [rowAx, rowAy]) ≠
      HashOc.calcular_hash_oc (some [rowAy, rowAx]) :=
  ⟨List.Perm.swap rowAy rowAx [], by decide⟩

theorem sortByCodigo_perm_eq {l1 l2 : List TransRow} (hp : l1.Perm l2)
    (hd : (l1.map (fun t => t.codigo.data)).Pairwise (fun a b => a ≠ b)) :
    sortByCodigo l1 = sortByCodigo l2 := by
  letI : IsTotal TransRow (fun a b => leL a.codigo.data b.codigo.data = true) :=
    ⟨fun a b => leL_total _ _⟩
  letI : IsTrans TransRow (fun a b => leL a.codigo.data b.codigo.data = true) :=
    ⟨fun a b c => leL_trans _ _ _⟩
  apply sorted_perm_distinct_eq (fun t => t.codigo.data)
  · exact (List.perm_insertionSort _ l1).trans (hp.trans (List.perm_insertionSort _ l2).symm)
  · exact List.sorted_insertionSort _ l1
  · exact List.sorted_insertionSort _ l2
  · have hperm2 : ((sortByCodigo l1).map (fun t => t.codigo.data)).Perm
        (l1.map (fun t => t.codigo.data)) :=
      (List.perm_insertionSort _ l1).map _
    exact (List.Perm.pairwise_iff (fun h => Ne.symm h) hperm2.symm).mp hd

theorem colIsIntOf_perm {l1 l2 : List DfRow} (h : l1.Perm l2) (proj : DfRow → Cell) :
    colIsIntOf l1 proj = colIsIntOf l2 proj :=
  perm_all_eq intLit (h.map _)

/-- C1. Amended: permutation invariance holds when the records share
the order-level metadata (as broadcast rows of one DataFrame do) and
the normalized product codes are pairwise distinct; with tied codes the
stable sort preserves input order and the digest can change. -/
theorem c1_amended (rows1 rows2 : List DfRow) (hperm : rows1.Perm rows2)
    (hmeta : ∀ r1 ∈ rows1, ∀ r2 ∈ rows1,
        metaTextStr r1.numeroOrden = metaTextStr r2.numeroOrden ∧
        metaTextStr r1.fecha = metaTextStr r2.fecha ∧
        metaTextStr r1.proveedor = metaTextStr r2.proveedor ∧
        metaTotalStr r1.total = metaTotalStr r2.total)
    (hdist : (rows1.map (fun r => (cellBaseStr r.codigoProducto).data)).Pairwise
        (fun a b => a ≠ b)) :
    HashOc.calcular_hash_oc (some rows1) = HashOc.calcular_hash_oc (some rows2) := by
  cases rows1 with
  | nil =>
    rw [← List.Perm.nil_eq hperm]
  | cons a t1 =>
    cases rows2 with
    | nil => exact absurd (List.Perm.eq_nil hperm) (by simp)
    | cons b t2 =>
      rw [calcular_cons_eq (a :: t1) rfl, calcular_cons_eq (b :: t2) rfl]
      unfold hashContenido
      have hb1 : b ∈ a :: t1 := hperm.mem_iff.mpr (List.mem_cons_self b t2)
      obtain ⟨hno, hfe, hpr, hto⟩ := hmeta a (List.mem_cons_self a t1) b hb1
      have hmetaeq : metaStrOf (a :: t1) = metaStrOf (b :: t2) := by
        rw [metaStrOf_cons, metaStrOf_cons, hno, hfe, hpr, hto]
      rw [hmetaeq]
      have hfc := colIsIntOf_perm hperm (fun r => r.cantidad)
      have hfp := colIsIntOf_perm hperm (fun r => r.precio)
      have hfi := colIsIntOf_perm hperm (fun r => r.importe)
      have htr2 : hashTransRows (b :: t2) =
          (b :: t2).map (transRow (colIsIntOf (a :: t1) (fun r => r.cantidad))
            (colIsIntOf (a :: t1) (fun r => r.precio))
            (colIsIntOf (a :: t1) (fun r => r.importe))) := by
        show (b :: t2).map (transRow (colIsIntOf (b :: t2) (fun r => r.cantidad))
            (colIsIntOf (b :: t2) (fun r => r.precio))
            (colIsIntOf (b :: t2) (fun r => r.importe))) = _
        rw [hfc, hfp, hfi]
      have htr1 : hashTransRows (a :: t1) =
          (a :: t1).map (transRow (colIsIntOf (a :: t1) (fun r => r.cantidad))
            (colIsIntOf (a :: t1) (fun r => r.precio))
            (colIsIntOf (a :: t1) (fun r => r.importe))) := rfl
      rw [htr1, htr2]
      have hsort : sortByCodigo ((a :: t1).map (transRow (colIsIntOf (a :: t1) (fun r => r.cantidad))
          (colIsIntOf (a :: t1) (fun r => r.precio))
          (colIsIntOf (a :: t1) (fun r => r.importe)))) =
          sortByCodigo ((b :: t2).map (transRow (colIsIntOf (a :: t1) (fun r => r.cantidad))
          (colIsIntOf (a :: t1) (fun r => r.precio))
          (colIsIntOf (a :: t1) (fun r => r.importe)))) := by
        apply sortByCodigo_perm_eq (hperm.map _)
        rw [List.map_map]
        exact hdist
      rw [hsort]

theorem c1_witness :
    List.Perm [rowB1, rowB2] [rowB2, rowB1] ∧
    (∀ r1 ∈ [rowB1, rowB2], ∀ r2 ∈ [rowB1, rowB2],
        metaTextStr r1.numeroOrden = metaTextStr r2.numeroOrden ∧
        metaTextStr r1.fecha = metaTextStr r2.fecha ∧
        metaTextStr r1.proveedor = metaTextStr r2.proveedor ∧
        metaTotalStr r1.total = metaTotalStr r2.total) ∧
    ([rowB1, rowB2].map (fun r => (cellBaseStr r.codigoProducto).data)).Pairwise
        (fun a b => a ≠ b) ∧
    HashOc.calcular_hash_oc (some [rowB1, rowB2]) =
      HashOc.calcular_hash_oc (some [rowB2, rowB1]) := by
  have hperm : List.Perm [rowB1, rowB2] [rowB2, rowB1] := List.Perm.swap rowB2 rowB1 []
  have hmeta : ∀ r1 ∈ [rowB1, rowB2], ∀ r2 ∈ [rowB1, rowB2],
      metaTextStr r1.numeroOrden = metaTextStr r2.numeroOrden ∧
      metaTextStr r1.fecha = metaTextStr r2.fecha ∧
      metaTextStr r1.proveedor = metaTextStr r2.proveedor ∧
      metaTotalStr r1.total = metaTotalStr r2.total := by decide
  have hdist : ([rowB1, rowB2].map (fun r => (cellBaseStr r.codigoProducto).data)).Pairwise
      (fun a b => a ≠ b) := by decide
  exact ⟨hperm, hmeta, hdist, c1_amended [rowB1, rowB2] [rowB2, rowB1] hperm hmeta hdist⟩
